import Mathlib

/-!
# Transfolio: bit channel, block transport, session protocol and name mapping

A shallow embedding of `transfolio.c` (file transfer between a PC and the
Atari Portfolio over the parallel port).  Line numbers refer to that file.

Modelling conventions

* A byte (`unsigned char`) is a `Nat`; every assignment that truncates in C
  is written with `u8`.  `unsigned int` and `int` values are `Nat` / `Int`.
* The program state and its environment are one record, `World`: the bytes
  the Portfolio is going to deliver (`inp`), the bytes handed to `sendByte`
  (`out`), the two output streams, the global variables of the program and
  the local file system.
* A C function is a function `World → Outcome α`.  `Outcome.ret` is a normal
  return, `Outcome.exit` is a call of `exit(EXIT_FAILURE)`, `Outcome.hang`
  is a wait for the peer that never ends (the input stream is exhausted) or
  a loop that never ends.
* `usleep` / `nanosleep` only pass time and are left out.
-/

namespace Transfolio

/-! ## Constants (lines 88-91, 149-154) -/

def PAYLOAD_BUFSIZE : Nat := 60000
def CONTROL_BUFSIZE : Nat := 100
def LIST_BUFSIZE : Nat := 2000
def MAX_FILENAME_LEN : Nat := 79

/-- The enum `VERBOSITY`. -/
inductive VERBOSITY where
  | VERB_QUIET
  | VERB_ERRORS
  | VERB_COUNTER
  | VERB_FLOWCONTROL
  deriving DecidableEq, Repr

/-- The integer value of an enumerator of `VERBOSITY`. -/
def VERBOSITY.toNat : VERBOSITY → Nat
  | .VERB_QUIET => 0
  | .VERB_ERRORS => 1
  | .VERB_COUNTER => 2
  | .VERB_FLOWCONTROL => 3

/-- The comparison `a >= b` of two enumerators. -/
def VERBOSITY.ge (a b : VERBOSITY) : Bool := decide (b.toNat ≤ a.toNat)

/-- Conversion of an `int` value to `unsigned char`. -/
def u8 (x : Int) : Nat := (x % 256).toNat

/-- Conversion of an `int` to `unsigned int` (32 bit), as the comparison
`len > maxLen` in `receiveBlock` does with `maxLen`: a negative value wraps
around, any other value of an `int` is kept. -/
def toUnsigned (x : Int) : Nat := if x < 0 then (x + 4294967296).toNat else x.toNat

/-! ## The local file system -/

/-- The part of the local file system the program looks at.  A file is known
by the directory the program is in and the path string it is opened with. -/
structure FS where
  /-- The current directory. -/
  cwd : List Nat
  /-- The regular files, each with its contents. -/
  files : List ((List Nat × List Nat) × List Nat)
  /-- The files `fopen(path, "wb")` fails on. -/
  readonly : List (List Nat × List Nat)
  /-- The paths `chdir` succeeds on. -/
  dirs : List (List Nat)
  /-- Whether `getcwd` succeeds. -/
  cwdOk : Bool

/-- The contents of the regular file `path`, if there is one. -/
def FS.read (fs : FS) (path : List Nat) : Option (List Nat) :=
  fs.files.lookup (fs.cwd, path)

/-- Whether `fopen(path, "rb")` gives a stream: `path` is a regular file or
a directory. -/
def FS.canOpen (fs : FS) (path : List Nat) : Bool :=
  (fs.read path).isSome || fs.dirs.contains path

/-- The call `fopen(path, "wb")`: the file is created or emptied; `none` when
it cannot be. -/
def FS.create (fs : FS) (path : List Nat) : Option FS :=
  if fs.readonly.contains (fs.cwd, path) || fs.dirs.contains path then none
  else some { fs with files := ((fs.cwd, path), []) ::
                fs.files.filter (fun f => f.1 != (fs.cwd, path)) }

/-- The effect of `fwrite` on the file `key`: the bytes are appended. -/
def FS.append (fs : FS) (key : List Nat × List Nat) (data : List Nat) : FS :=
  { fs with files := fs.files.map (fun f => if f.1 == key then (f.1, f.2 ++ data) else f) }

/-- The call `chdir(path)`; `none` when it fails. -/
def FS.chdir (fs : FS) (path : List Nat) : Option FS :=
  if fs.dirs.contains path then some { fs with cwd := path } else none

/-! ## The state -/

/-- The program state together with its environment. -/
structure World where
  /-- The bytes the Portfolio delivers to `receiveByte`, next one first. -/
  inp : List Nat
  /-- The bytes handed to `sendByte`, oldest first. -/
  out : List Nat
  /-- One entry for each `printf`. -/
  stdout : List String
  /-- One entry for each `fprintf(stderr, ...)`. -/
  stderr : List String
  /-- The global `force`. -/
  force : Bool
  /-- The global `sourcecount`. -/
  sourcecount : Nat
  /-- The buffer `payload` (`PAYLOAD_BUFSIZE` bytes). -/
  payload : List Nat
  /-- The buffer `controlData` (`CONTROL_BUFSIZE` bytes). -/
  controlData : List Nat
  /-- The buffer `list` (`LIST_BUFSIZE` bytes). -/
  list : List Nat
  /-- The array `transmitInit` (90 bytes). -/
  transmitInit : List Nat
  /-- The array `receiveInit` (82 bytes). -/
  receiveInit : List Nat
  /-- The static counter of `receiveFile`. -/
  nReceivedFiles : Nat
  /-- The local file system. -/
  fs : FS

/-- How a call ends. -/
inductive Outcome (α : Type) where
  /-- Normal return. -/
  | ret (a : α) (w : World)
  /-- The call reached `exit(EXIT_FAILURE)`. -/
  | exit (w : World)
  /-- The call never returns. -/
  | hang (w : World)
  /-- The call does something the C standard leaves undefined. -/
  | undef (w : World)

/-- The state the run is in when the call ends. -/
def Outcome.world {α : Type} : Outcome α → World
  | .ret _ w => w
  | .exit w => w
  | .hang w => w
  | .undef w => w

/-- A C function with a result of type `α`. -/
def M (α : Type) : Type := World → Outcome α

/-- Sequencing: the second call runs only if the first one returns. -/
def M.bind {α β : Type} (m : M α) (f : α → M β) : M β := fun w =>
  match m w with
  | .ret a w1 => f a w1
  | .exit w1 => .exit w1
  | .hang w1 => .hang w1
  | .undef w1 => .undef w1

/-- A return without effect. -/
def M.pure {α : Type} (a : α) : M α := fun w => .ret a w

instance : Monad M where
  pure := M.pure
  bind := M.bind

/-- The state as it is. -/
def getWorld : M World := fun w => .ret w w

/-- A change of the state. -/
def modifyWorld (f : World → World) : M Unit := fun w => .ret () (f w)

/-- The call `exit(EXIT_FAILURE)`. -/
def exitFailure {α : Type} : M α := fun w => .exit w

/-- A `printf` call, given the text it writes. -/
def printf (s : String) : M Unit := fun w =>
  .ret () { w with stdout := w.stdout ++ [s] }

/-- A `fprintf(stderr, ...)` call, given the text it writes. -/
def eprintf (s : String) : M Unit := fun w =>
  .ret () { w with stderr := w.stderr ++ [s] }

/-! ## The byte channel (lines 343-397, seen from the block layer)

`receiveByte` and `sendByte` are modelled bit by bit in the namespace `Bit`
below.  The block layer only sees their effect: a byte received is the next
byte the Portfolio sends, a byte sent is appended to what it was given. -/

/-- The function `receiveByte`, seen as a whole. -/
def receiveByte : M Nat := fun w =>
  match w.inp with
  | [] => .hang w
  | b :: rest => .ret b { w with inp := rest }

/-- The function `sendByte`, seen as a whole. -/
def sendByte (byte : Nat) : M Unit := fun w =>
  .ret () { w with out := w.out ++ [byte] }

/-! ## Block transport (lines 404-531) -/

/-- The payload loop of `sendBlock` (lines 434-440): `n` bytes are left,
`i` is the loop index.  The result is the checksum. -/
def sendBlockLoop (pData : List Nat) (len : Nat) (verbosity : VERBOSITY) :
    Nat → Nat → Nat → M Nat
  | 0, _, checksum => pure checksum
  | n + 1, i, checksum => do
    let byte := pData.getD i 0
    sendByte byte
    let checksum := u8 ((checksum : Int) - byte)
    if verbosity.ge .VERB_COUNTER then
      printf s!"Sent {i + 1} of {len} bytes.\r"
    sendBlockLoop pData len verbosity n (i + 1) checksum

/-- The function `sendBlock` (lines 404-460). -/
def sendBlock (pData : List Nat) (len : Nat) (verbosity : VERBOSITY) : M Unit := do
  if len ≠ 0 then
    let byte ← receiveByte
    if byte = 'Z'.toNat then
      if verbosity.ge .VERB_FLOWCONTROL then
        printf "Portfolio ready for receiving.\n"
    else
      if verbosity.ge .VERB_ERRORS then
        eprintf "Portfolio not ready!\n"
        exitFailure
    sendByte 0xa5
    let lenH := u8 (len >>> 8)
    let lenL := len &&& 255
    let checksum := 0
    sendByte lenL
    let checksum := u8 ((checksum : Int) - lenL)
    sendByte lenH
    let checksum := u8 ((checksum : Int) - lenH)
    let checksum ← sendBlockLoop pData len verbosity len 0 checksum
    sendByte checksum
    if verbosity.ge .VERB_COUNTER then
      printf "\n"
    let byte ← receiveByte
    if byte = checksum then
      if verbosity.ge .VERB_FLOWCONTROL then
        eprintf "checksum OK\n"
    else
      if verbosity.ge .VERB_ERRORS then
        eprintf s!"checksum ERR: {byte}\n"
        exitFailure

/-- The payload loop of `receiveBlock` (lines 501-508): `n` bytes are left,
`i` is the loop index.  The result is the buffer and the checksum. -/
def receiveBlockLoop (len : Nat) (verbosity : VERBOSITY) :
    Nat → Nat → List Nat → Nat → M (List Nat × Nat)
  | 0, _, pData, checksum => pure (pData, checksum)
  | n + 1, i, pData, checksum => do
    let byte ← receiveByte
    let checksum := u8 ((checksum : Int) + byte)
    let pData := pData.set i byte
    if verbosity.ge .VERB_COUNTER then
      printf s!"Received {i + 1} of {len} bytes\r"
    receiveBlockLoop len verbosity n (i + 1) pData checksum

/-- Two upper-case hexadecimal digits, the format `%2X` of a byte. -/
def fmtX2 (b : Nat) : String :=
  let d (x : Nat) : Char := if x < 10 then Char.ofNat (48 + x) else Char.ofNat (55 + x)
  if b < 16 then String.mk [' ', d b] else String.mk [d (b / 16), d (b % 16)]

/-- The function `receiveBlock` (lines 467-531).  The buffer `pData` is
passed in and handed back with the length. -/
def receiveBlock (pData : List Nat) (maxLen : Int) (verbosity : VERBOSITY) :
    M (Int × List Nat) := do
  let checksum := 0
  sendByte 'Z'.toNat
  let byte ← receiveByte
  if byte = 0xa5 then
    if verbosity.ge .VERB_FLOWCONTROL then
      eprintf "Acknowledge OK\n"
  else
    if verbosity.ge .VERB_ERRORS then
      eprintf s!"Acknowledge ERROR (received {fmtX2 byte} instead of A5)\n"
      exitFailure
  let lenL ← receiveByte
  let checksum := u8 ((checksum : Int) + lenL)
  let lenH ← receiveByte
  let checksum := u8 ((checksum : Int) + lenH)
  let len := (lenH <<< 8) ||| lenL
  if len > toUnsigned maxLen then
    if verbosity.ge .VERB_ERRORS then
      eprintf s!"Receive buffer too small ({maxLen} instead of {len} bytes).\n"
    return (0, pData)
  else
    let (pData, checksum) ← receiveBlockLoop len verbosity len 0 pData checksum
    if verbosity.ge .VERB_COUNTER then
      printf "\n"
    let byte ← receiveByte
    if u8 (256 - (byte : Int)) = checksum then
      if verbosity.ge .VERB_FLOWCONTROL then
        eprintf "checksum OK\n"
    else
      if verbosity.ge .VERB_ERRORS then
        eprintf s!"checksum ERR {u8 (256 - (byte : Int))} {checksum}\n"
        exitFailure
    sendByte (u8 (256 - (checksum : Int)))
    return (len, pData)

/-- What the payload loop of `sendBlock` prints. -/
def sentLog (len : Nat) (verbosity : VERBOSITY) (i n : Nat) : List String :=
  if verbosity.ge .VERB_COUNTER then
    (List.range' i n).map (fun j => s!"Sent {j + 1} of {len} bytes.\r")
  else []

/-- The checksum `sendBlock` arrives at from `c` over the bytes `l`. -/
def subSum (c : Nat) (l : List Nat) : Nat :=
  l.foldl (fun (c b : Nat) => u8 ((c : Int) - (b : Int))) c

/-- The checksum byte `sendBlock` computes for the first `len` bytes of `pData`. -/
def blockChecksum (pData : List Nat) (len : Nat) : Nat :=
  subSum 0 ([len &&& 255, u8 (len >>> 8)] ++ pData.take len)

/-- The bytes `sendBlock` hands to `sendByte` for the first `len` bytes of `pData`. -/
def wire (pData : List Nat) (len : Nat) : List Nat :=
  [0xa5, len &&& 255, u8 (len >>> 8)] ++ pData.take len ++ [blockChecksum pData len]

/-- What a `sendBlock` call that succeeds writes to `stdout`. -/
def sendBlockOut (len : Nat) (verbosity : VERBOSITY) : List String :=
  (if verbosity.ge .VERB_FLOWCONTROL then ["Portfolio ready for receiving.\n"] else []) ++
    sentLog len verbosity 0 len ++
    (if verbosity.ge .VERB_COUNTER then ["\n"] else [])

/-- What a `sendBlock` call that succeeds writes to `stderr`. -/
def sendBlockErr (verbosity : VERBOSITY) : List String :=
  if verbosity.ge .VERB_FLOWCONTROL then ["checksum OK\n"] else []

/-- What the payload loop of `receiveBlock` prints. -/
def recvLog (len : Nat) (verbosity : VERBOSITY) (i n : Nat) : List String :=
  if verbosity.ge .VERB_COUNTER then
    (List.range' i n).map (fun j => s!"Received {j + 1} of {len} bytes\r")
  else []

/-- The checksum `receiveBlock` arrives at from `c` over the bytes `l`. -/
def addSum (c : Nat) (l : List Nat) : Nat :=
  l.foldl (fun (c b : Nat) => u8 ((c : Int) + (b : Int))) c

/-- What a `receiveBlock` call writes to `stdout` for a block of `len` bytes. -/
def recvBlockOut (len : Nat) (verbosity : VERBOSITY) : List String :=
  recvLog len verbosity 0 len ++ (if verbosity.ge .VERB_COUNTER then ["\n"] else [])

/-- What a `receiveBlock` call that succeeds writes to `stderr`. -/
def recvBlockErr (verbosity : VERBOSITY) : List String :=
  (if verbosity.ge .VERB_FLOWCONTROL then ["Acknowledge OK\n"] else []) ++
    (if verbosity.ge .VERB_FLOWCONTROL then ["checksum OK\n"] else [])

/-- The state `main` starts the transfers in: nothing received or sent yet,
the arrays `transmitInit` and `receiveInit` as initialised in lines 165-182,
the three buffers allocated (their contents taken as zero), an empty
directory as the local file system. -/
def startWorld (inp : List Nat) : World :=
  { inp := inp, out := [], stdout := [], stderr := [], force := false, sourcecount := 1,
    payload := List.replicate PAYLOAD_BUFSIZE 0,
    controlData := List.replicate CONTROL_BUFSIZE 0,
    list := List.replicate LIST_BUFSIZE 0,
    transmitInit := [0x03, 0x00, 0x70, 0x0C, 0x7A, 0x21, 0x32] ++ List.replicate 83 0,
    receiveInit := [0x06, 0x00, 0x70] ++ List.replicate 79 0,
    nReceivedFiles := 0,
    fs := { cwd := [], files := [], readonly := [], dirs := [[]], cwdOk := true } }

/-! ## The bit channel (lines 264-397) -/

namespace Bit

/-- The parallel port as the program sees it. -/
structure Port where
  /-- The values the coming `readPort` calls return, next one first. -/
  status : List Nat
  /-- The values passed to `writePort`, oldest first. -/
  written : List Nat
  deriving DecidableEq

/-- The function `readPort` (lines 264-286); `none` when the model has no
further status value. -/
def readPort (p : Port) : Option (Nat × Port) :=
  match p.status with
  | [] => none
  | s :: rest => some (s, { p with status := rest })

/-- The function `writePort` (lines 292-313). -/
def writePort (byte : Nat) (p : Port) : Port :=
  { p with written := p.written ++ [byte] }

/-- The loop of `waitClockHigh` (lines 316-322) over the status values to
come; `none` when the clock never gets high. -/
def waitHigh : List Nat → Option (List Nat)
  | [] => none
  | s :: rest => if s &&& 0x20 ≠ 0 then some rest else waitHigh rest

/-- The function `waitClockHigh` (lines 316-322). -/
def waitClockHigh (p : Port) : Option Port :=
  (waitHigh p.status).map (fun rest => { p with status := rest })

/-- The loop of `waitClockLow` (lines 324-330) over the status values to
come; `none` when the clock never gets low. -/
def waitLow : List Nat → Option (List Nat)
  | [] => none
  | s :: rest => if s &&& 0x20 = 0 then some rest else waitLow rest

/-- The function `waitClockLow` (lines 324-330). -/
def waitClockLow (p : Port) : Option Port :=
  (waitLow p.status).map (fun rest => { p with status := rest })

/-- The function `getBit` (lines 333-336). -/
def getBit (p : Port) : Option (Nat × Port) :=
  (readPort p).map (fun r => ((r.1 &&& 0x10) >>> 4, r.2))

/-- The loop of `receiveByte` (lines 348-355) with `n` rounds left. -/
def receiveByteLoop : Nat → Nat → Port → Option (Nat × Port)
  | 0, byte, p => some (byte, p)
  | n + 1, byte, p => do
    let p ← waitClockLow p
    let (bit, p) ← getBit p
    let byte := u8 (((byte <<< 1) ||| bit : Nat) : Int)
    let p := writePort 0 p
    let p ← waitClockHigh p
    let (bit, p) ← getBit p
    let byte := u8 (((byte <<< 1) ||| bit : Nat) : Int)
    let p := writePort 2 p
    receiveByteLoop n byte p

/-- The function `receiveByte` (lines 343-358).  The local `byte` is not
initialised; `garbage` is the value it happens to hold. -/
def receiveByte (garbage : Nat) (p : Port) : Option (Nat × Port) :=
  receiveByteLoop 4 garbage p

/-- The loop of `sendByte` (lines 380-396) with `n` rounds left. -/
def sendByteLoop : Nat → Nat → Port → Option Port
  | 0, _, p => some p
  | n + 1, byte, p => do
    let b := ((byte &&& 0x80) >>> 7) ||| 2
    let p := writePort b p
    let b := (byte &&& 0x80) >>> 7
    let p := writePort b p
    let byte := u8 ((byte <<< 1 : Nat) : Int)
    let p ← waitClockLow p
    let b := (byte &&& 0x80) >>> 7
    let p := writePort b p
    let b := ((byte &&& 0x80) >>> 7) ||| 2
    let p := writePort b p
    let byte := u8 ((byte <<< 1 : Nat) : Int)
    let p ← waitClockHigh p
    sendByteLoop n byte p

/-- The function `sendByte` (lines 365-397). -/
def sendByte (byte : Nat) (p : Port) : Option Port :=
  sendByteLoop 4 byte p

end Bit

/-! ## Strings and files -/

/-- The text `%s` prints for the string `s`. -/
def showStr (s : List Nat) : String := String.mk (s.map Char.ofNat)

/-- The string that starts at the first byte of `mem`: the bytes before the
first NUL. -/
def cstr (mem : List Nat) : List Nat := mem.takeWhile (fun c => c != 0)

/-- The call `strncpy(dst + off, src, n)`: exactly `n` bytes are written,
the string `src` (at most `n` bytes of it) and then NULs. -/
def strncpyAt (dst : List Nat) (off : Nat) (src : List Nat) (n : Nat) : List Nat :=
  let s := (cstr src).take n
  dst.take off ++ s ++ List.replicate (n - s.length) 0 ++ dst.drop (off + n)

/-- Conversion of a file position to `int`, as the assignment of `ftell` to
`len` does. -/
def toInt (n : Nat) : Int := ((n : Int) + 2147483648) % 4294967296 - 2147483648

/-- Conversion of an `int` to `size_t` (64 bit), as a call of `fread` does
with its count: a negative value wraps around. -/
def toSize (x : Int) : Nat := if x < 0 then (x + 18446744073709551616).toNat else x.toNat

/-- The call `fread(buf, 1, count, file)`, where `file` is what is left to
read: the buffer with the bytes read at its start and what is left then. -/
def fread (buf : List Nat) (count : Nat) (file : List Nat) : List Nat × List Nat :=
  ((file.take count) ++ buf.drop (file.take count).length, file.drop count)

/-! ## Sending a file (lines 537-620) -/

/-- The array `transmitOverwrite`. -/
def transmitOverwrite : List Nat := [0x05, 0x00, 0x70]

/-- The array `transmitCancel`. -/
def transmitCancel : List Nat := [0x00, 0x00, 0x00]

/-- A `receiveBlock` call into the buffer `controlData`. -/
def receiveControl (verbosity : VERBOSITY) : M Int := do
  let w ← getWorld
  let r ← receiveBlock w.controlData (CONTROL_BUFSIZE : Nat) verbosity
  modifyWorld (fun w => { w with controlData := r.2 })
  pure r.1

/-- A `receiveBlock` call into the buffer `payload` with the capacity `maxLen`. -/
def receivePayload (maxLen : Int) (verbosity : VERBOSITY) : M Int := do
  let w ← getWorld
  let r ← receiveBlock w.payload maxLen verbosity
  modifyWorld (fun w => { w with payload := r.2 })
  pure r.1

/-- Lines 566-570 of `transmitFile`: the file length and the destination
path are put into `transmitInit`.  For an `int`, `x & 255` is `u8 x`. -/
def transmitHeader (transmitInit : List Nat) (len : Int) (dest : List Nat) : List Nat :=
  let t := transmitInit.set 7 (u8 len)
  let t := t.set 8 (u8 (len >>> (8 : Nat)))
  let t := t.set 9 (u8 (len >>> (16 : Nat)))
  strncpyAt t 11 dest MAX_FILENAME_LEN

/-- The loop in lines 603-607 of `transmitFile`; `file` is what is left to
read.  The loop is run at most `fuel` times; if `len` still exceeds the block
size then, it would never end (see `transmitPayload`). -/
def transmitLoop (blocksize : Nat) : Nat → Int → List Nat → M (Int × List Nat)
  | 0, len, file => fun w =>
    if len > (blocksize : Int) then .hang w else .ret (len, file) w
  | fuel + 1, len, file =>
    if len > (blocksize : Int) then do
      let w ← getWorld
      let r := fread w.payload blocksize file
      modifyWorld (fun w => { w with payload := r.1 })
      sendBlock r.1 blocksize .VERB_COUNTER
      transmitLoop blocksize fuel (len - blocksize) r.2
    else pure (len, file)

/-- Lines 599-601 of `transmitFile`: the number of blocks is announced.  The
division in line 600 is undefined when `blocksize` is 0. -/
def transmitAnnounce (len : Int) (blocksize : Nat) : M Unit :=
  if len > (blocksize : Int) then
    if blocksize = 0 then
      fun w => .undef w
    else
      printf s!"Transmission consists of {(len + blocksize - 1).tdiv blocksize} blocks of payload.\n"
  else pure ()

/-- Lines 602-611 of `transmitFile`: the file is sent block by block.  Each
round of the loop takes `blocksize` off `len`, so `len` rounds are enough
unless `blocksize` is 0. -/
def transmitChunks (len : Int) (blocksize : Nat) (file : List Nat) : M Unit := do
  let r ← transmitLoop blocksize len.toNat len file
  let w ← getWorld
  let r2 := fread w.payload (toSize r.1) r.2
  modifyWorld (fun w => { w with payload := r2.1 })
  if r.1 ≠ 0 then
    sendBlock r2.1 (toUnsigned r.1) .VERB_COUNTER

/-- Lines 599-611 of `transmitFile`, the payload phase. -/
def transmitPayload (len : Int) (blocksize : Nat) (file : List Nat) : M Unit := do
  transmitAnnounce len blocksize
  transmitChunks len blocksize file

/-- Lines 575-620 of `transmitFile`: what follows the first reply. -/
def transmitRest (len : Int) (file : List Nat) : M Unit := do
  let w ← getWorld
  if w.controlData.getD 0 0 = 0x10 then
    eprintf "Invalid destination file!\n"
    exitFailure
  let go : M Unit := do
    let w ← getWorld
    let blocksize := w.controlData.getD 1 0 + (w.controlData.getD 2 0 <<< 8)
    if blocksize > PAYLOAD_BUFSIZE then
      eprintf "Payload buffer too small!\n"
      exitFailure
    transmitPayload len blocksize file
    let _ ← receiveControl .VERB_ERRORS
    let w ← getWorld
    if w.controlData.getD 0 0 ≠ 0x20 then
      eprintf "Transmission failed!\nPossilby disk full on Portfolio or directory does not exist.\n"
      exitFailure
  if w.controlData.getD 0 0 = 0x20 then
    printf "File exists on Portfolio"
    if w.force then
      printf " and is being overwritten.\n"
      sendBlock transmitOverwrite 3 .VERB_ERRORS
      go
    else
      printf "! Use -f to force overwriting.\n"
      sendBlock transmitCancel 3 .VERB_ERRORS
  else
    go

/-- The function `transmitFile` (lines 537-620).  A directory opens like a
file and makes `ftell` give -1; `fseek` does not fail. -/
def transmitFile (source dest : List Nat) : M Unit := do
  let w ← getWorld
  if ¬ w.fs.canOpen source then
    eprintf s!"File not found: {showStr source}\n"
    exitFailure
  else
    let file := (w.fs.read source).getD []
    let len : Int := if (w.fs.read source).isNone then -1 else toInt file.length
    if len = -1 ∨ len > 32 * 1024 * 1024 then
      eprintf s!"Skipping {showStr source}.\n"
    else
      modifyWorld (fun w => { w with transmitInit := transmitHeader w.transmitInit len dest })
      let w ← getWorld
      sendBlock w.transmitInit 90 .VERB_ERRORS
      let _ ← receiveControl .VERB_ERRORS
      transmitRest len file

/-- The bytes that go out for the blocks `blocks`. -/
def frames (blocks : List (List Nat)) : List Nat :=
  blocks.flatMap (fun ch => wire ch ch.length)

/-- The contents of a file of 16777216 bytes (16 MiB). -/
def bigFile : List Nat := List.replicate 16777216 0

/-- A state in which the file `big.bin` of 16777216 bytes is to be sent and
the Portfolio has sent its ready byte. -/
def bigFileWorld : World :=
  { startWorld ['Z'.toNat] with
    fs := { cwd := [], files := [(([], "big.bin".toList.map Char.toNat), bigFile)],
            readonly := [], dirs := [[]], cwdOk := true } }

/-! ## Destination name mapping (lines 781-840)

The strings `source` and `dest` are given by their bytes before the
terminating NUL.  `pofoName` is the caller's buffer of 80 bytes, given with
whatever it holds when `composePofoName` is called. -/

/-- The length `strlen` finds for the string at the start of the buffer
`buf`; `none` when the buffer holds no NUL, so that `strlen` reads past it. -/
def strlenBuf (buf : List Nat) : Option Nat :=
  if buf.contains 0 then some (cstr buf).length else none

/-- The call `strncat(buf, src, n)`: at most `n` bytes of the string `src` and
a NUL are written behind the string in `buf`; `none` when that leaves the
buffer. -/
def strncat (buf src : List Nat) (n : Nat) : Option (List Nat) :=
  match strlenBuf buf with
  | none => none
  | some l =>
    let s := (cstr src).take n
    if l + s.length + 1 ≤ buf.length then
      some (buf.take l ++ s ++ [0] ++ buf.drop (l + s.length + 1))
    else none

/-- The index `strchr(s, c)` points to, if any. -/
def strchr (c : Nat) : List Nat → Option Nat
  | [] => none
  | x :: xs => if x = c then some 0 else (strchr c xs).map (fun i => i + 1)

/-- The index `strrchr(s, c)` points to, if any. -/
def strrchr (c : Nat) : List Nat → Option Nat
  | [] => none
  | x :: xs =>
    match strrchr c xs with
    | some i => some (i + 1)
    | none => if x = c then some 0 else none

/-- The loop in lines 788-790: as long as `strchr` finds a slash it is
replaced, so every slash is. -/
def exchangeSlashes : List Nat → List Nat
  | [] => []
  | x :: xs => (if x = '/'.toNat then '\\'.toNat else x) :: exchangeSlashes xs

/-- The loop in lines 814-816 on the `ext` bytes before the last dot: every
dot found there is replaced by an underscore. -/
def replaceDots : List Nat → List Nat
  | [] => []
  | x :: xs => (if x = '.'.toNat then '_'.toNat else x) :: replaceDots xs

/-- What `composePofoName` leaves in the three arrays it is given. -/
structure PofoResult where
  /-- The source string, its dots replaced in place. -/
  source : List Nat
  /-- The destination string, its slashes replaced in place. -/
  dest : List Nat
  /-- The buffer `pofoName`. -/
  pofoName : List Nat
  deriving DecidableEq, Repr

/-- Lines 804-838 of `composePofoName`: the name of the source file is
appended to the directory in `pofoName`.  The lengths passed to `strncat` are
between 0 and 8 and are kept as `Nat`. -/
def appendName (source pofoName : List Nat) : Option (List Nat × List Nat) :=
  let start :=
    match strrchr '/'.toNat source with
    | some i => i + 1
    | none =>
      match strrchr '\\'.toNat source with
      | some i => i + 1
      | none => 0
  let name := source.drop start
  match strrchr '.'.toNat name with
  | some ext =>
    let name := replaceDots (name.take ext) ++ name.drop ext
    let len := ext
    let len := if len > 8 then 8 else len
    match strlenBuf pofoName with
    | none => none
    | some l =>
      let len := if len > MAX_FILENAME_LEN - l then MAX_FILENAME_LEN - l else len
      match strncat pofoName name len with
      | none => none
      | some pofoName =>
        let len := 4
        match strlenBuf pofoName with
        | none => none
        | some l =>
          let len := if len > MAX_FILENAME_LEN - l then MAX_FILENAME_LEN - l else len
          match strncat pofoName (name.drop ext) len with
          | none => none
          | some pofoName => some (source.take start ++ name, pofoName)
  | none =>
    let len := 8
    match strlenBuf pofoName with
    | none => none
    | some l =>
      let len := if len > MAX_FILENAME_LEN - l then MAX_FILENAME_LEN - l else len
      match strncat pofoName name len with
      | none => none
      | some pofoName => some (source, pofoName)

/-- The function `composePofoName` (lines 781-840); `none` when it reads
outside the buffer `pofoName`: past its end when `dest` fills the 79 bytes
copied and the byte after them is not NUL, before its start when `dest` is
empty. -/
def composePofoName (source dest pofoName : List Nat) (sourcecount : Int) :
    Option PofoResult :=
  let dest := exchangeSlashes dest
  let pofoName := strncpyAt pofoName 0 dest MAX_FILENAME_LEN
  match strlenBuf pofoName with
  | none => none
  | some n =>
    if n = 0 then none
    else
      let lastChar := pofoName.getD (n - 1) 0
      if sourcecount > 1 ∨ lastChar = '\\'.toNat ∨ lastChar = ':'.toNat then
        let appended :=
          if lastChar ≠ '\\'.toNat then
            strncat pofoName ['\\'.toNat] (MAX_FILENAME_LEN - n)
          else some pofoName
        match appended with
        | none => none
        | some pofoName =>
          match appendName source pofoName with
          | none => none
          | some r => some { source := r.1, dest := dest, pofoName := r.2 }
      else some { source := source, dest := dest, pofoName := pofoName }

/-- The bytes of a text. -/
def bytes (s : String) : List Nat := s.toList.map Char.toNat

/-- The path `composePofoName` produces: the string in `pofoName`. -/
def PofoResult.path (r : PofoResult) : List Nat := cstr r.pofoName

/-- A destination of 79 bytes, each of them the letter `a`. -/
def longDest : List Nat := List.replicate 79 'a'.toNat

/-- A buffer `pofoName` of 80 bytes none of which is NUL, as the array of
automatic storage in `main` may be when `composePofoName` is called. -/
def staleBuffer : List Nat := List.replicate 80 0xff
/-! ## Receiving files and listing a directory (lines 626-773)

The bytes behind an array are not part of the state.  A read of a string
that finds no NUL inside its array goes on behind the array, and `strncpy`
in line 707 writes behind the end of `receiveInit` when the source pattern
has a drive or a directory: both give `Outcome.undef`. -/

/-- An access behind the end of an array: what follows is not defined. -/
def outOfBounds {α : Type} : M α := fun w => .undef w

/-- The array `receiveFinish`. -/
def receiveFinish : List Nat := [0x20, 0x00, 0x03]

/-- A `receiveBlock` call into the buffer `list`. -/
def receiveList (maxLen : Int) (verbosity : VERBOSITY) : M Int := do
  let w ← getWorld
  let r ← receiveBlock w.list maxLen verbosity
  modifyWorld (fun w => { w with list := r.2 })
  pure r.1

/-- Lines 659-668 of `receiveFile`: the offset in `receiveInit` behind the
drive and the directory of the pattern, where a file name is to be put;
`none` when the pattern fills `receiveInit` up to its end, so that there is
no NUL and `strrchr` reads behind the array. -/
def namebaseOf (receiveInit : List Nat) : Option Nat :=
  if (receiveInit.drop 3).contains 0 then
    let namebase := 3
    let namebase :=
      match strrchr ':'.toNat (cstr (receiveInit.drop namebase)) with
      | some pos => namebase + pos + 1
      | none => namebase
    match strrchr '\\'.toNat (cstr (receiveInit.drop namebase)) with
    | some pos => some (namebase + pos + 1)
    | none => some namebase
  else none

/-- The loop in lines 725-729 of `receiveFile`: blocks are received and
written to the file `key` until `total` is used up.  Every round that returns
takes bytes off the input, so `fuel` rounds are enough when `fuel` is the
number of bytes the Portfolio will send at all. -/
def receiveData (key : List Nat × List Nat) : Nat → Int → M Unit
  | 0, total => fun w => if total > 0 then .hang w else .ret () w
  | fuel + 1, total =>
    if total > 0 then do
      let len ← receivePayload (PAYLOAD_BUFSIZE : Nat) .VERB_COUNTER
      modifyWorld (fun w => { w with fs := w.fs.append key (w.payload.take (toSize len)) })
      receiveData key fuel (total - len)
    else pure ()

/-- Lines 720-722 of `receiveFile`: the number of blocks is announced. -/
def receiveAnnounce (total : Int) : M Unit :=
  let blocksize : Int := 0x7000
  if total > blocksize then
    printf s!"Transmission consists of {(total + blocksize - 1).tdiv blocksize} blocks of payload.\n"
  else pure ()

/-- Lines 713-732 of `receiveFile`: the reply in `controlData` is looked at,
the payload is received and written to the file `key`, the close block is
sent. -/
def receiveContent (key : List Nat × List Nat) : M Unit := do
  let w ← getWorld
  if w.controlData.getD 0 0 ≠ 0x20 then
    eprintf "Unknown protocol error! \n"
    exitFailure
  else
    let total : Int := (w.controlData.getD 7 0 + (w.controlData.getD 8 0 <<< 8) +
      (w.controlData.getD 9 0 <<< 16) : Nat)
    receiveAnnounce total
    let w ← getWorld
    receiveData key (w.inp.length + 1) total
    sendBlock receiveFinish 3 .VERB_ERRORS

/-- Lines 705-733 of `receiveFile`: the file `basename` is requested from
the Portfolio and written to the file `key`, which has been opened.  The
`strncpy` call of line 707 writes `MAX_FILENAME_LEN` bytes from the offset
`namebase` on, which is behind the end of `receiveInit` unless `namebase` is
3. -/
def receiveRequest (namebase : Nat) (basename : List Nat) (key : List Nat × List Nat) :
    M Unit := do
  modifyWorld (fun w => { w with receiveInit := w.receiveInit.set 0 2 })
  let w ← getWorld
  if namebase + MAX_FILENAME_LEN ≤ w.receiveInit.length then
    modifyWorld (fun w => { w with receiveInit :=
      (strncpyAt w.receiveInit namebase basename MAX_FILENAME_LEN) })
    let w ← getWorld
    sendBlock w.receiveInit 82 .VERB_ERRORS
    let _ ← receiveControl .VERB_ERRORS
    receiveContent key
  else outOfBounds

/-- Lines 675-735 of `receiveFile`, one round of the loop over the files:
`i` is the loop index, `basename` the offset of the file name in `list`.  The
result is the offset of the next name. -/
def receiveOne (dest : List Nat) (destIsDir : Bool) (namebase num i basename : Nat) :
    M Nat := do
  let w ← getWorld
  printf s!"Transferring file {w.nReceivedFiles + i}"
  (if w.sourcecount = 1 then printf s!" of {num}" else pure ())
  if (w.list.drop basename).contains 0 then
    let name := cstr (w.list.drop basename)
    printf s!": {showStr name}\n"
    let dest := if destIsDir then name else dest
    if w.fs.canOpen dest ∧ ¬ w.force then
      printf "File exists! Use -f to force overwriting.\n"
      (if i < num then printf "Remaining files are not copied!\n" else pure ())
      exitFailure
    else
      match w.fs.create dest with
      | none =>
        eprintf s!"Cannot create file: {showStr dest}\n"
        exitFailure
      | some fs =>
        modifyWorld (fun w => { w with fs := fs })
        receiveRequest namebase name (fs.cwd, dest)
        pure (basename + name.length + 1)
  else outOfBounds

/-- The loop in lines 673-736 of `receiveFile` with `n` files left. -/
def receiveFiles (dest : List Nat) (destIsDir : Bool) (namebase num : Nat) :
    Nat → Nat → Nat → M Unit
  | 0, _, _ => pure ()
  | n + 1, i, basename => do
    let next ← receiveOne dest destIsDir namebase num i basename
    receiveFiles dest destIsDir namebase num n (i + 1) next

/-- Lines 646-657 of `receiveFile`: the list of matching files is fetched.
The result is their number. -/
def receiveListing (source : List Nat) : M Nat := do
  modifyWorld (fun w => { w with receiveInit :=
    (strncpyAt (w.receiveInit.set 0 6) 3 source MAX_FILENAME_LEN) })
  let w ← getWorld
  sendBlock w.receiveInit 82 .VERB_ERRORS
  let _ ← receiveList 2000 .VERB_ERRORS
  let w ← getWorld
  pure (w.list.getD 0 0 + (w.list.getD 1 0 <<< 8))

/-- The function `receiveFile` (lines 626-747). -/
def receiveFile (source dest : List Nat) : M Unit := do
  let w ← getWorld
  if ¬ w.fs.cwdOk then
    eprintf s!"Unexpected error: getcwd() failed!\n  {showStr dest}"
    exitFailure
  else
    let startdir := w.fs.cwd
    let destIsDir := (w.fs.chdir dest).isSome
    modifyWorld (fun w => { w with fs := (w.fs.chdir dest).getD w.fs })
    let num ← receiveListing source
    if num = 0 then
      printf s!"File not found on Portfolio: {showStr source}\n"
      exitFailure
    else
      let w ← getWorld
      match namebaseOf w.receiveInit with
      | none => outOfBounds
      | some namebase =>
        receiveFiles dest destIsDir namebase num num 1 2
        let w ← getWorld
        if destIsDir ∧ (w.fs.chdir startdir).isNone then
          eprintf s!"Unexpected error: chdirs({showStr startdir}) failed!\n"
          exitFailure
        else
          modifyWorld (fun w => { w with
            fs := if destIsDir then (w.fs.chdir startdir).getD w.fs else w.fs,
            nReceivedFiles := w.nReceivedFiles + num })

/-- The loop in lines 769-772 of `listFiles` with `n` names left; `name` is
the offset of the next name in `payload`. -/
def listNames : Nat → Nat → M Unit
  | 0, _ => pure ()
  | n + 1, name => do
    let w ← getWorld
    if (w.payload.drop name).contains 0 then
      let s := cstr (w.payload.drop name)
      printf s!"{showStr s}\n"
      listNames n (name + s.length + 1)
    else outOfBounds

/-- The function `listFiles` (lines 753-773). -/
def listFiles (pattern : List Nat) : M Unit := do
  printf s!"Fetching directory listing for {showStr pattern}\n"
  modifyWorld (fun w => { w with receiveInit :=
    (strncpyAt w.receiveInit 3 pattern MAX_FILENAME_LEN) })
  let w ← getWorld
  sendBlock w.receiveInit 82 .VERB_ERRORS
  let _ ← receivePayload (PAYLOAD_BUFSIZE : Nat) .VERB_ERRORS
  let w ← getWorld
  let num := w.payload.getD 0 0 + (w.payload.getD 1 0 <<< 8)
  (if num = 0 then printf "No files.\n" else pure ())
  listNames num 2

/-- A state in which the Portfolio accepts a list request for `*.txt` and
answers it with a listing of no entries. -/
def noMatchWorld : World :=
  { startWorld [] with
    inp := 'Z'.toNat ::
      blockChecksum (strncpyAt ((startWorld []).receiveInit.set 0 6) 3 (bytes "*.txt")
        MAX_FILENAME_LEN) 82 ::
      (wire [0, 0] 2 ++ []) }

/-! ### A Portfolio that serves files, for the statements on `receiveFile` -/

/-- What the Portfolio sends for a file it serves: the reply to the
open-for-read block and the payload blocks. -/
structure Served where
  /-- The reply to the open-for-read block. -/
  reply : List Nat
  /-- The payload blocks. -/
  blocks : List (List Nat)

/-- The total `receiveFile` reads from the reply in `controlData` (line 718). -/
def declaredTotal (controlData : List Nat) : Nat :=
  controlData.getD 7 0 + (controlData.getD 8 0 <<< 8) + (controlData.getD 9 0 <<< 16)

/-- The statement "the payload loop, started with `total`, reads the blocks
`blocks` and no more": each block fits the payload buffer and is read while
`total` is positive, and `total` is used up after the last. -/
def Serves : Int → List (List Nat) → Prop
  | total, [] => total ≤ 0
  | total, b :: bs => 0 < total ∧ b.length ≤ 60000 ∧ Serves (total - b.length) bs

/-- The statement "the reply is one `receiveFile` goes on with and the
payload blocks are those its loop reads". -/
def Served.ok (s : Served) : Prop :=
  10 ≤ s.reply.length ∧ s.reply.length ≤ 100 ∧ s.reply.getD 0 0 = 0x20 ∧
  Serves (declaredTotal s.reply) s.blocks

/-- The file system when the payload blocks `blocks` have been written to
the file `key`. -/
def writeBlocks (key : List Nat × List Nat) (fs : FS) (blocks : List (List Nat)) : FS :=
  blocks.foldl (fun fs b => fs.append key b) fs

/-- The sum of the lengths of the first `j` of the blocks `blocks`. -/
def firstLens (blocks : List (List Nat)) (j : Nat) : Nat :=
  ((blocks.take j).map List.length).sum

/-- A state in which the reply `20 .. 03 00 00` to an open-for-read block
has arrived, the file `f` has been created, and the Portfolio sends the
payload blocks `1 2` and `3 4` and accepts the close block. -/
def reassemblyWorld : World :=
  { startWorld [] with
    controlData := [0x20, 0, 0, 0, 0, 0, 0, 3, 0, 0] ++ List.replicate 90 0,
    fs := { cwd := [], files := [(([], bytes "f"), [])], readonly := [], dirs := [[]],
            cwdOk := true },
    inp := frames [[1, 2], [3, 4]] ++ ['Z'.toNat, blockChecksum receiveFinish 3] }
/-! ## Reasoning about sequenced calls -/

@[simp] theorem bind_apply {α β : Type} (m : M α) (f : α → M β) (w : World) :
    (m >>= f) w = M.bind m f w := rfl

@[simp] theorem pure_apply {α : Type} (a : α) (w : World) :
    (pure a : M α) w = .ret a w := rfl

theorem bind_ret {α β : Type} (m : M α) (f : α → M β) (w w1 : World) (a : α)
    (h : m w = .ret a w1) : M.bind m f w = f a w1 := by
  simp [M.bind, h]

theorem bind_exit {α β : Type} (m : M α) (f : α → M β) (w w1 : World)
    (h : m w = .exit w1) : M.bind m f w = .exit w1 := by
  simp [M.bind, h]

theorem bind_hang {α β : Type} (m : M α) (f : α → M β) (w w1 : World)
    (h : m w = .hang w1) : M.bind m f w = .hang w1 := by
  simp [M.bind, h]

@[simp] theorem getWorld_apply (w : World) : getWorld w = .ret w w := rfl

@[simp] theorem modifyWorld_apply (f : World → World) (w : World) :
    modifyWorld f w = .ret () (f w) := rfl

@[simp] theorem sendByte_apply (b : Nat) (w : World) :
    sendByte b w = .ret () { w with out := w.out ++ [b] } := rfl

@[simp] theorem printf_apply (s : String) (w : World) :
    printf s w = .ret () { w with stdout := w.stdout ++ [s] } := rfl

@[simp] theorem eprintf_apply (s : String) (w : World) :
    eprintf s w = .ret () { w with stderr := w.stderr ++ [s] } := rfl

@[simp] theorem exitFailure_apply {α : Type} (w : World) :
    (exitFailure : M α) w = .exit w := rfl

theorem receiveByte_cons (b : Nat) (rest : List Nat) (w : World) (h : w.inp = b :: rest) :
    receiveByte w = .ret b { w with inp := rest } := by
  simp [receiveByte, h]

theorem receiveByte_nil (w : World) (h : w.inp = []) : receiveByte w = .hang w := by
  simp [receiveByte, h]

theorem sendBlockLoop_run (pData : List Nat) (len : Nat) (verbosity : VERBOSITY) :
    ∀ (n i c : Nat) (w : World), i + n ≤ pData.length →
      sendBlockLoop pData len verbosity n i c w =
        .ret (subSum c ((pData.drop i).take n))
          { w with out := w.out ++ (pData.drop i).take n,
                   stdout := w.stdout ++ sentLog len verbosity i n } := by
  intro n
  induction n with
  | zero => intro i c w _; simp [sendBlockLoop, subSum, sentLog]
  | succ n ih =>
    intro i c w h
    have hi : i < pData.length := by omega
    have hd : (pData.drop i).take (n + 1) = pData[i] :: (pData.drop (i + 1)).take n := by
      rw [List.drop_eq_getElem_cons hi, List.take_succ_cons]
    have hl : sentLog len verbosity i (n + 1) =
        (if verbosity.ge .VERB_COUNTER then [s!"Sent {i + 1} of {len} bytes.\r"] else []) ++
          sentLog len verbosity (i + 1) n := by
      unfold sentLog
      cases verbosity.ge .VERB_COUNTER <;> simp [List.range'_succ]
    rw [hd, hl]
    unfold sendBlockLoop
    cases hv : verbosity.ge .VERB_COUNTER <;>
    simp [M.bind, ih (i + 1) _ _ (by omega), subSum, List.getElem?_eq_getElem hi]

theorem sendBlock_zero (pData : List Nat) (verbosity : VERBOSITY) (w : World) :
    sendBlock pData 0 verbosity w = .ret () w := by
  simp [sendBlock]

/-- A `sendBlock` call that finds the Portfolio ready and reads its own
checksum back returns, having sent `wire pData len`. -/
theorem sendBlock_ok (pData : List Nat) (len : Nat) (verbosity : VERBOSITY) (w : World)
    (rest : List Nat) (hlen : len ≠ 0) (hcap : len ≤ pData.length)
    (hinp : w.inp = 'Z'.toNat :: blockChecksum pData len :: rest) :
    sendBlock pData len verbosity w =
      .ret () { w with inp := rest,
                       out := w.out ++ wire pData len,
                       stdout := w.stdout ++ sendBlockOut len verbosity,
                       stderr := w.stderr ++ sendBlockErr verbosity } := by
  have hloop := sendBlockLoop_run pData len verbosity len 0
  simp only [List.drop_zero, Nat.zero_add] at hloop
  cases verbosity <;>
  simp [sendBlock, hlen, M.bind, receiveByte, hinp, hloop _ _ hcap, VERBOSITY.ge,
    VERBOSITY.toNat, wire, blockChecksum, subSum, sendBlockOut, sendBlockErr]

/-- Whatever the Portfolio answers after the ready byte, `sendBlock` has
handed `wire pData len` to `sendByte` when the call ends. -/
theorem sendBlock_out (pData : List Nat) (len : Nat) (verbosity : VERBOSITY) (w : World)
    (rest : List Nat) (hlen : len ≠ 0) (hcap : len ≤ pData.length)
    (hinp : w.inp = 'Z'.toNat :: rest) :
    (sendBlock pData len verbosity w).world.out = w.out ++ wire pData len := by
  have hloop := sendBlockLoop_run pData len verbosity len 0
  simp only [List.drop_zero, Nat.zero_add] at hloop
  cases rest with
  | nil =>
    cases verbosity <;>
    simp [sendBlock, hlen, M.bind, receiveByte, hinp, hloop _ _ hcap, VERBOSITY.ge,
      VERBOSITY.toNat, wire, blockChecksum, subSum, Outcome.world]
  | cons b rest =>
    cases verbosity <;>
    simp [sendBlock, hlen, M.bind, receiveByte, hinp, hloop _ _ hcap, VERBOSITY.ge,
      VERBOSITY.toNat, wire, blockChecksum, subSum, Outcome.world] <;>
    split_ifs <;> simp [M.bind]

theorem take_set_succ (l : List Nat) (b : Nat) :
    ∀ (i : Nat), i < l.length → (l.set i b).take (i + 1) = l.take i ++ [b] := by
  induction l with
  | nil => intro i h; simp at h
  | cons a l ih =>
    intro i h
    cases i with
    | zero => simp
    | succ i => simp at h; simp [ih i h]

theorem drop_set_succ (l : List Nat) (b : Nat) :
    ∀ (i k : Nat), i < k → (l.set i b).drop k = l.drop k := by
  induction l with
  | nil => intro i k _; simp
  | cons a l ih =>
    intro i k h
    cases k with
    | zero => omega
    | succ k =>
      cases i with
      | zero => simp
      | succ i => simp [ih i k (by omega)]

theorem receiveBlockLoop_run (len : Nat) (verbosity : VERBOSITY) :
    ∀ (n i : Nat) (pData : List Nat) (c : Nat) (w : World) (data rest : List Nat),
      data.length = n → w.inp = data ++ rest → i + n ≤ pData.length →
      receiveBlockLoop len verbosity n i pData c w =
        .ret (pData.take i ++ data ++ pData.drop (i + n), addSum c data)
          { w with inp := rest, stdout := w.stdout ++ recvLog len verbosity i n } := by
  intro n
  induction n with
  | zero =>
    intro i pData c w data rest hd hinp _
    have : data = [] := List.length_eq_zero.mp hd
    subst this
    simp at hinp
    simp [receiveBlockLoop, addSum, recvLog, ← hinp]
  | succ n ih =>
    intro i pData c w data rest hd hinp hcap
    cases data with
    | nil => simp at hd
    | cons b data =>
      simp at hd
      have hi : i < pData.length := by omega
      have hl : recvLog len verbosity i (n + 1) =
          (if verbosity.ge .VERB_COUNTER then [s!"Received {i + 1} of {len} bytes\r"] else []) ++
            recvLog len verbosity (i + 1) n := by
        unfold recvLog
        cases verbosity.ge .VERB_COUNTER <;> simp [List.range'_succ]
      have hset : (pData.set i b).take (i + 1) ++ data ++ (pData.set i b).drop (i + 1 + n) =
          pData.take i ++ b :: data ++ pData.drop (i + (n + 1)) := by
        rw [take_set_succ _ _ _ hi, drop_set_succ _ _ i (i + 1 + n) (by omega)]
        simp [Nat.add_assoc, Nat.add_comm 1 n]
      have ih2 := fun (c : Nat) (w : World) (h : w.inp = data ++ rest) =>
        ih (i + 1) (pData.set i b) c w data rest hd h (by simp; omega)
      rw [hl]
      unfold receiveBlockLoop
      cases hv : verbosity.ge .VERB_COUNTER <;>
      simp [M.bind, receiveByte, hinp, ih2, addSum, hset]

/-- A `receiveBlock` call on a block with the marker, a length that fits and
a trailer that matches returns the length, with the payload in the buffer
and the acknowledgment sent. -/
theorem receiveBlock_ok (pData : List Nat) (maxLen : Int) (verbosity : VERBOSITY) (w : World)
    (lenL lenH t : Nat) (data rest : List Nat)
    (hinp : w.inp = 0xa5 :: lenL :: lenH :: (data ++ t :: rest))
    (hlen : data.length = (lenH <<< 8) ||| lenL)
    (hmax : data.length ≤ toUnsigned maxLen)
    (hcap : data.length ≤ pData.length)
    (ht : u8 (256 - (t : Int)) = addSum 0 (lenL :: lenH :: data)) :
    receiveBlock pData maxLen verbosity w =
      .ret ((data.length : Int), data ++ pData.drop data.length)
        { w with inp := rest,
                 out := w.out ++ ['Z'.toNat, u8 (256 - (addSum 0 (lenL :: lenH :: data) : Int))],
                 stdout := w.stdout ++ recvBlockOut data.length verbosity,
                 stderr := w.stderr ++ recvBlockErr verbosity } := by
  have hloop := fun (c : Nat) (w : World) (h : w.inp = data ++ t :: rest) =>
    receiveBlockLoop_run data.length verbosity data.length 0 pData c w data (t :: rest) rfl h
      (by omega)
  simp only [List.take_zero, List.nil_append, Nat.zero_add] at hloop
  have hmax2 : ¬ (toUnsigned maxLen < data.length) := by omega
  simp only [addSum, List.foldl_cons] at ht
  cases verbosity <;>
  simp [receiveBlock, M.bind, receiveByte, hinp, ← hlen, hmax2, hloop, VERBOSITY.ge,
    VERBOSITY.toNat, recvBlockOut, recvBlockErr, addSum, ht]

/-- A `receiveBlock` call on a block with the marker and a length that fits
whose trailer does not match ends the run, unless the verbosity is
`VERB_QUIET`. -/
theorem receiveBlock_mismatch (pData : List Nat) (maxLen : Int) (verbosity : VERBOSITY)
    (w : World) (lenL lenH t : Nat) (data rest : List Nat)
    (hv : verbosity.ge .VERB_ERRORS = true)
    (hinp : w.inp = 0xa5 :: lenL :: lenH :: (data ++ t :: rest))
    (hlen : data.length = (lenH <<< 8) ||| lenL)
    (hmax : data.length ≤ toUnsigned maxLen)
    (hcap : data.length ≤ pData.length)
    (ht : u8 (256 - (t : Int)) ≠ addSum 0 (lenL :: lenH :: data)) :
    ∃ w1, receiveBlock pData maxLen verbosity w = .exit w1 ∧ w1.out = w.out ++ ['Z'.toNat]
      ∧ w1.fs = w.fs := by
  have hloop := fun (c : Nat) (w : World) (h : w.inp = data ++ t :: rest) =>
    receiveBlockLoop_run data.length verbosity data.length 0 pData c w data (t :: rest) rfl h
      (by omega)
  simp only [List.take_zero, List.nil_append, Nat.zero_add] at hloop
  have hmax2 : ¬ (toUnsigned maxLen < data.length) := by omega
  simp [addSum] at ht
  cases verbosity <;>
  simp [VERBOSITY.ge, VERBOSITY.toNat] at hv <;>
  simp [receiveBlock, M.bind, receiveByte, hinp, ← hlen, hmax2, hloop, VERBOSITY.ge,
    VERBOSITY.toNat, ht, addSum]

/-- A `receiveBlock` call on a block with the marker whose length does not
fit returns 0 after the length bytes. -/
theorem receiveBlock_small (pData : List Nat) (maxLen : Int) (verbosity : VERBOSITY)
    (w : World) (lenL lenH : Nat) (rest : List Nat)
    (hinp : w.inp = 0xa5 :: lenL :: lenH :: rest)
    (hmax : toUnsigned maxLen < (lenH <<< 8) ||| lenL) :
    ∃ w1, receiveBlock pData maxLen verbosity w = .ret (0, pData) w1 ∧ w1.inp = rest
      ∧ w1.out = w.out ++ ['Z'.toNat] ∧ w1.fs = w.fs := by
  cases verbosity <;>
  simp [receiveBlock, M.bind, receiveByte, hinp, hmax, VERBOSITY.ge, VERBOSITY.toNat]

/-! ## Arithmetic of the checksum and of the length bytes -/

theorem subSum_eq (l : List Nat) :
    ∀ x : Int, subSum (u8 x) l = u8 (x - (l.sum : Int)) := by
  induction l with
  | nil => intro x; simp [subSum]
  | cons b l ih =>
    intro x
    have h : u8 ((u8 x : Int) - b) = u8 (x - b) := by unfold u8; omega
    simp only [subSum, List.foldl_cons, List.sum_cons] at ih ⊢
    rw [h, ih]
    congr 1
    push_cast
    ring

theorem addSum_eq (l : List Nat) :
    ∀ x : Int, addSum (u8 x) l = u8 (x + (l.sum : Int)) := by
  induction l with
  | nil => intro x; simp [addSum]
  | cons b l ih =>
    intro x
    have h : u8 ((u8 x : Int) + b) = u8 (x + b) := by unfold u8; omega
    simp only [addSum, List.foldl_cons, List.sum_cons] at ih ⊢
    rw [h, ih]
    congr 1
    push_cast
    ring

theorem subSum_zero (l : List Nat) : subSum 0 l = (256 - l.sum % 256) % 256 := by
  have h := subSum_eq l 0
  have h0 : u8 0 = 0 := by decide
  rw [h0] at h
  rw [h]
  unfold u8
  omega

theorem addSum_zero (l : List Nat) : addSum 0 l = l.sum % 256 := by
  have h := addSum_eq l 0
  have h0 : u8 0 = 0 := by decide
  rw [h0] at h
  rw [h]
  unfold u8
  omega

theorem shiftLeft8_or (a b : Nat) (h : b < 256) : (a <<< 8) ||| b = a * 256 + b := by
  rw [Nat.shiftLeft_eq, show a * 2 ^ 8 = 2 ^ 8 * a by ring, ← Nat.mul_add_lt_is_or h a]
  omega

theorem and_255 (len : Nat) : len &&& 255 = len % 256 :=
  Nat.and_pow_two_sub_one_eq_mod len 8

theorem shiftRight8 (len : Nat) : len >>> 8 = len / 256 := by
  simp [Nat.shiftRight_eq_div_pow]

theorem lenH_eq (len : Nat) (h : len ≤ 65535) : u8 (len >>> 8) = len / 256 := by
  rw [shiftRight8]
  unfold u8
  omega

/-- The two length bytes and the checksum of a block of at most 65535 bytes. -/
theorem wire_eq (P : List Nat) (h : P.length ≤ 65535) :
    wire P P.length =
      [0xa5, P.length % 256, P.length / 256] ++ P ++
        [(256 - (P.length % 256 + P.length / 256 + P.sum) % 256) % 256] := by
  simp only [wire, blockChecksum, subSum_zero, and_255, lenH_eq _ h, List.take_length]
  simp [Nat.add_assoc]

theorem toUnsigned_of_nonneg (n : Nat) (m : Int) (h : (n : Int) ≤ m) : n ≤ toUnsigned m := by
  unfold toUnsigned
  split <;> omega

/-- A `sendBlock` call that reads back a byte other than its checksum ends
the run, unless the verbosity is `VERB_QUIET`. -/
theorem sendBlock_bad (pData : List Nat) (len : Nat) (verbosity : VERBOSITY) (w : World)
    (b : Nat) (rest : List Nat) (hlen : len ≠ 0) (hcap : len ≤ pData.length)
    (hv : verbosity.ge .VERB_ERRORS = true)
    (hinp : w.inp = 'Z'.toNat :: b :: rest) (hb : b ≠ blockChecksum pData len) :
    ∃ w1, sendBlock pData len verbosity w = .exit w1 := by
  have hloop := sendBlockLoop_run pData len verbosity len 0
  simp only [List.drop_zero, Nat.zero_add] at hloop
  simp [blockChecksum, subSum] at hb
  cases verbosity <;>
  simp [VERBOSITY.ge, VERBOSITY.toNat] at hv <;>
  simp [sendBlock, hlen, M.bind, receiveByte, hinp, hloop _ _ hcap, VERBOSITY.ge,
    VERBOSITY.toNat, subSum, hb]

/-- A `receiveBlock` call on a block the Portfolio sends in the form `wire`:
the marker, the length, the bytes `data` and the checksum. -/
theorem receiveBlock_wire (pData data : List Nat) (maxLen : Int) (verbosity : VERBOSITY)
    (w : World) (rest : List Nat) (h16 : data.length ≤ 65535)
    (hmax : (data.length : Int) ≤ maxLen) (hcap : data.length ≤ pData.length)
    (hinp : w.inp = wire data data.length ++ rest) :
    receiveBlock pData maxLen verbosity w =
      .ret ((data.length : Int), data ++ pData.drop data.length)
        { w with inp := rest,
                 out := w.out ++ ['Z'.toNat, blockChecksum data data.length],
                 stdout := w.stdout ++ recvBlockOut data.length verbosity,
                 stderr := w.stderr ++ recvBlockErr verbosity } := by
  have hL : (data.length &&& 255) < 256 := by rw [and_255]; omega
  have hH : u8 (data.length >>> 8) = data.length / 256 := lenH_eq _ h16
  have hlen : data.length = (u8 (data.length >>> 8) <<< 8) ||| (data.length &&& 255) := by
    rw [shiftLeft8_or _ _ hL, hH, and_255]; omega
  have hck : u8 (256 - (blockChecksum data data.length : Int)) =
      addSum 0 ((data.length &&& 255) :: u8 (data.length >>> 8) :: data) := by
    rw [addSum_zero, blockChecksum, subSum_zero]
    simp only [List.take_length, List.cons_append, List.nil_append]
    unfold u8
    omega
  have hack : u8 ((256 : Int) -
      (addSum 0 ((data.length &&& 255) :: u8 (data.length >>> 8) :: data) : Nat)) =
      blockChecksum data data.length := by
    rw [addSum_zero, blockChecksum, subSum_zero]
    simp only [List.take_length, List.cons_append, List.nil_append]
    unfold u8
    omega
  have hin : w.inp = 0xa5 :: (data.length &&& 255) :: u8 (data.length >>> 8) ::
      (data ++ blockChecksum data data.length :: rest) := by
    rw [hinp]; simp [wire]
  have hrecv := receiveBlock_ok pData maxLen verbosity w _ _ _ data rest hin hlen
    (toUnsigned_of_nonneg _ _ hmax) hcap hck
  rw [hrecv, hack]

/-! ## Claims on the block transport -/

/-- C2: for a payload `P` of 1 to 65535 bytes and a Portfolio whose ready byte
is `'Z'`, the bytes `sendBlock` hands to `sendByte` are exactly
`[0xA5, len mod 256, len div 256] ++ P ++ [c]`, where `c` is the negation
mod 256 of the sum of the two length bytes and the payload bytes; that sum
plus `c` is 0 mod 256, and the marker `0xA5` is not part of it. -/
theorem sendBlock_wire_format (P : List Nat) (verbosity : VERBOSITY) (w : World)
    (rest : List Nat) (hpos : 0 < P.length) (hmax : P.length ≤ 65535)
    (hready : w.inp = 'Z'.toNat :: rest) :
    ∃ c : Nat,
      c = (256 - (P.length % 256 + P.length / 256 + P.sum) % 256) % 256 ∧
      (sendBlock P P.length verbosity w).world.out =
        w.out ++ ([0xA5, P.length % 256, P.length / 256] ++ P ++ [c]) ∧
      (P.length % 256 + P.length / 256 + P.sum + c) % 256 = 0 := by
  refine ⟨_, rfl, ?_, by omega⟩
  rw [sendBlock_out P P.length verbosity w rest (by omega) (le_refl _) hready, wire_eq P hmax]

theorem sendBlock_wire_format_witness :
    ∃ c : Nat, c = 251 ∧
      (sendBlock [1, 2] 2 .VERB_ERRORS (startWorld ['Z'.toNat])).world.out =
        [0xA5, 2, 0, 1, 2, c] := by
  obtain ⟨c, hc, hout, _⟩ := sendBlock_wire_format [1, 2] .VERB_ERRORS (startWorld ['Z'.toNat]) []
    (by decide) (by decide) rfl
  exact ⟨c, by simpa using hc, by simpa [startWorld] using hout⟩

/-- C1: block round trip.  For a payload `P` of 1 to 65535 bytes that fits
`maxLen` and the buffer, feed the bytes `sent` that `sendBlock` transmits
after the ready byte to `receiveBlock`: it returns `len(P)` without an
error message, the buffer starts with `P`, the first byte it sends is `'Z'`
and the acknowledgment `ack` it sends last is the checksum byte at the end
of `sent`, the one byte `sendBlock` accepts when it reads back. -/
theorem block_round_trip (P buf : List Nat) (maxLen : Int) (vs vr : VERBOSITY)
    (ws wr : World) (rest1 rest2 sent : List Nat)
    (hpos : 0 < P.length) (h16 : P.length ≤ 65535) (hmax : (P.length : Int) ≤ maxLen)
    (hcap : P.length ≤ buf.length)
    (hready : ws.inp = 'Z'.toNat :: rest1)
    (hsent : (sendBlock P P.length vs ws).world.out = ws.out ++ sent)
    (hfeed : wr.inp = sent ++ rest2) :
    ∃ (ack : Nat) (buf1 : List Nat) (wr1 : World),
      receiveBlock buf maxLen vr wr = .ret ((P.length : Int), buf1) wr1 ∧
      buf1.take P.length = P ∧ buf1.drop P.length = buf.drop P.length ∧
      wr1.inp = rest2 ∧ wr1.stderr = wr.stderr ++ recvBlockErr vr ∧
      wr1.out = wr.out ++ ['Z'.toNat, ack] ∧
      sent.head? = some 0xa5 ∧ sent.getLast? = some ack ∧
      (∀ rest, ∃ ws1, sendBlock P P.length vs { ws with inp := 'Z'.toNat :: ack :: rest } =
        .ret () ws1 ∧ ws1.inp = rest) ∧
      (∀ b rest, b ≠ ack → vs.ge .VERB_ERRORS = true →
        ∃ ws1, sendBlock P P.length vs { ws with inp := 'Z'.toNat :: b :: rest } = .exit ws1) := by
  have hne : P.length ≠ 0 := by omega
  rw [sendBlock_out P P.length vs ws rest1 hne (le_refl _) hready] at hsent
  have hs : sent = wire P P.length := (List.append_cancel_left hsent).symm
  subst hs
  have hL : (P.length &&& 255) < 256 := by rw [and_255]; omega
  have hH : u8 (P.length >>> 8) = P.length / 256 := lenH_eq _ h16
  have hlen : P.length = (u8 (P.length >>> 8) <<< 8) ||| (P.length &&& 255) := by
    rw [shiftLeft8_or _ _ hL, hH, and_255]; omega
  have hck : u8 (256 - (blockChecksum P P.length : Int)) =
      addSum 0 ((P.length &&& 255) :: u8 (P.length >>> 8) :: P) := by
    rw [addSum_zero, blockChecksum, subSum_zero]
    simp only [List.take_length, List.cons_append, List.nil_append]
    unfold u8
    omega
  have hack : u8 ((256 : Int) - (addSum 0 ((P.length &&& 255) :: u8 (P.length >>> 8) :: P) : Nat)) =
      blockChecksum P P.length := by
    rw [addSum_zero, blockChecksum, subSum_zero]
    simp only [List.take_length, List.cons_append, List.nil_append]
    unfold u8
    omega
  have hin : wr.inp = 0xa5 :: (P.length &&& 255) :: u8 (P.length >>> 8) ::
      (P ++ blockChecksum P P.length :: rest2) := by
    rw [hfeed]; simp [wire]
  have hrecv := receiveBlock_ok buf maxLen vr wr _ _ _ P rest2 hin hlen
    (toUnsigned_of_nonneg _ _ hmax) hcap hck
  refine ⟨blockChecksum P P.length, P ++ buf.drop P.length, _, hrecv, ?_, ?_, rfl, rfl, ?_, ?_,
    ?_, ?_, ?_⟩
  · simp
  · simp
  · simp [hack]
  · simp [wire]
  · have : wire P P.length =
        ([0xa5, P.length &&& 255, u8 (P.length >>> 8)] ++ P) ++ [blockChecksum P P.length] := by
      simp [wire]
    rw [this, List.getLast?_append]
    simp
  · intro rest
    exact ⟨_, sendBlock_ok P P.length vs _ rest hne (le_refl _) rfl, rfl⟩
  · intro b rest hb hv
    exact sendBlock_bad P P.length vs _ b rest hne (le_refl _) hv rfl hb

theorem block_round_trip_witness :
    ∃ (ack : Nat) (buf1 : List Nat) (wr1 : World),
      receiveBlock [0, 0, 0] 3 .VERB_ERRORS (startWorld [0xa5, 2, 0, 7, 9, 238]) =
        .ret (2, buf1) wr1 ∧ buf1.take 2 = [7, 9] ∧ wr1.out = ['Z'.toNat, ack] := by
  obtain ⟨ack, buf1, wr1, h1, h2, _, _, _, h3, _⟩ :=
    block_round_trip [7, 9] [0, 0, 0] 3 .VERB_ERRORS .VERB_ERRORS (startWorld ['Z'.toNat])
      (startWorld [0xa5, 2, 0, 7, 9, 238]) [] [] [0xa5, 2, 0, 7, 9, 238]
      (by decide) (by decide) (by decide) (by decide) rfl
      (by rw [sendBlock_out [7, 9] [7, 9].length .VERB_ERRORS _ [] (by decide) (by decide) rfl]
          simp [startWorld, wire, blockChecksum, subSum, u8]
          decide)
      (by simp [startWorld])
  exact ⟨ack, buf1, wr1, h1, h2, by simpa [startWorld] using h3⟩

/-- C3: with verbosity at least `VERB_ERRORS`, for a stream that starts with
the marker `0xA5`, two length bytes with `len = lenH*256 + lenL <= maxLen`
(0 included), `len` payload bytes and a trailer `t`: `receiveBlock` returns
`len` with the payload in the buffer if the sum of the length bytes, the
payload bytes and `t` is 0 mod 256, and ends the run if it is not; so it
returns `len` exactly if that sum is 0 mod 256.  The zero-length block
`00 00 00` is accepted and returns 0. -/
theorem receiveBlock_checksum_validation (buf : List Nat) (maxLen : Int)
    (verbosity : VERBOSITY) (w : World) (lenL lenH t : Nat) (payload rest : List Nat)
    (hv : verbosity.ge .VERB_ERRORS = true)
    (hL : lenL < 256) (hH : lenH < 256)
    (hlen : payload.length = lenH * 256 + lenL)
    (hmax : ((lenH * 256 + lenL : Nat) : Int) ≤ maxLen)
    (hcap : payload.length ≤ buf.length)
    (hinp : w.inp = 0xa5 :: lenL :: lenH :: (payload ++ t :: rest)) :
    ((lenL + lenH + payload.sum + t) % 256 = 0 →
      ∃ buf1 w1, receiveBlock buf maxLen verbosity w =
          .ret (((lenH * 256 + lenL : Nat) : Int), buf1) w1 ∧
        buf1.take (lenH * 256 + lenL) = payload) ∧
    ((lenL + lenH + payload.sum + t) % 256 ≠ 0 →
      ∃ w1, receiveBlock buf maxLen verbosity w = .exit w1) ∧
    ((∃ r w1, receiveBlock buf maxLen verbosity w = .ret r w1) ↔
      (lenL + lenH + payload.sum + t) % 256 = 0) ∧
    (payload = [] → t = 0 →
      ∃ w1, receiveBlock buf maxLen verbosity w = .ret (0, buf) w1) := by
  have hlen2 : payload.length = (lenH <<< 8) ||| lenL := by
    rw [shiftLeft8_or _ _ hL]; exact hlen
  have hmax2 : payload.length ≤ toUnsigned maxLen :=
    toUnsigned_of_nonneg _ _ (by rw [hlen]; exact hmax)
  have hsum : addSum 0 (lenL :: lenH :: payload) = (lenL + lenH + payload.sum) % 256 := by
    rw [addSum_zero]; simp [Nat.add_assoc]
  have hiff : u8 (256 - (t : Int)) = addSum 0 (lenL :: lenH :: payload) ↔
      (lenL + lenH + payload.sum + t) % 256 = 0 := by
    rw [hsum]; unfold u8; omega
  have hgood : (lenL + lenH + payload.sum + t) % 256 = 0 →
      ∃ buf1 w1, receiveBlock buf maxLen verbosity w =
          .ret (((lenH * 256 + lenL : Nat) : Int), buf1) w1 ∧
        buf1.take (lenH * 256 + lenL) = payload := by
    intro h
    have := receiveBlock_ok buf maxLen verbosity w lenL lenH t payload rest hinp hlen2 hmax2 hcap
      (hiff.mpr h)
    rw [hlen] at this
    exact ⟨_, _, this, by rw [← hlen]; simp⟩
  have hbad : (lenL + lenH + payload.sum + t) % 256 ≠ 0 →
      ∃ w1, receiveBlock buf maxLen verbosity w = .exit w1 := by
    intro h
    obtain ⟨w1, h1, _⟩ := receiveBlock_mismatch buf maxLen verbosity w lenL lenH t payload rest
      hv hinp hlen2 hmax2 hcap (fun hc => h (hiff.mp hc))
    exact ⟨w1, h1⟩
  refine ⟨hgood, hbad, ⟨?_, ?_⟩, ?_⟩
  · rintro ⟨r, w1, h⟩
    by_contra hne
    obtain ⟨w2, h2⟩ := hbad hne
    rw [h2] at h
    cases h
  · intro h
    obtain ⟨b, w1, h1, _⟩ := hgood h
    exact ⟨_, w1, h1⟩
  · intro hp ht
    subst hp ht
    simp at hlen
    have hz : lenH = 0 ∧ lenL = 0 := by omega
    obtain ⟨h1, h2⟩ := hz
    subst h1 h2
    have := receiveBlock_ok buf maxLen verbosity w 0 0 0 [] rest hinp (by simp) (by simp)
      (by simp) (by decide)
    exact ⟨_, by simpa using this⟩

theorem receiveBlock_checksum_validation_witness :
    ∃ w1, receiveBlock [5, 5] 100 .VERB_ERRORS (startWorld [0xa5, 0, 0, 0]) = .ret (0, [5, 5]) w1 :=
  (receiveBlock_checksum_validation [5, 5] 100 .VERB_ERRORS (startWorld [0xa5, 0, 0, 0]) 0 0 0 [] []
    (by decide) (by decide) (by decide) (by decide) (by decide) (by decide) rfl).2.2.2 rfl rfl

/-! ## Claims on the bit channel -/

namespace Bit

end Bit

/-! ## Claims on sending a file -/

theorem toSize_natCast (n : Nat) : toSize (n : Int) = n := by
  unfold toSize
  split <;> omega

/-- A `sendBlock` call that finds the Portfolio ready but never reads its
checksum back has sent `wire pData len` and waits. -/
theorem sendBlock_hang (pData : List Nat) (len : Nat) (verbosity : VERBOSITY) (w : World)
    (hlen : len ≠ 0) (hcap : len ≤ pData.length) (hinp : w.inp = ['Z'.toNat]) :
    ∃ w1, sendBlock pData len verbosity w = .hang w1 ∧ w1.out = w.out ++ wire pData len := by
  have hloop := sendBlockLoop_run pData len verbosity len 0
  simp only [List.drop_zero, Nat.zero_add] at hloop
  cases verbosity <;>
  simp [sendBlock, hlen, M.bind, receiveByte, hinp, hloop _ _ hcap, VERBOSITY.ge,
    VERBOSITY.toNat, wire, blockChecksum, subSum]

theorem strncpyAt_length (dst src : List Nat) (off n : Nat) (h : off + n ≤ dst.length) :
    (strncpyAt dst off src n).length = dst.length := by
  simp only [strncpyAt, List.length_append, List.length_take, List.length_replicate,
    List.length_drop]
  omega

theorem transmitHeader_length (t dest : List Nat) (len : Int) (h : 90 ≤ t.length) :
    (transmitHeader t len dest).length = t.length := by
  unfold transmitHeader
  rw [strncpyAt_length _ _ _ _ (by simp [MAX_FILENAME_LEN]; omega)]
  simp

/-- The bytes 7 to 9 of the control block `transmitFile` builds. -/
theorem transmitHeader_bytes (t dest : List Nat) (len : Int) (h : 90 ≤ t.length) :
    (transmitHeader t len dest).getD 7 0 = u8 len ∧
    (transmitHeader t len dest).getD 8 0 = u8 (len >>> (8 : Nat)) ∧
    (transmitHeader t len dest).getD 9 0 = u8 (len >>> (16 : Nat)) := by
  have h11 : ((((t.set 7 (u8 len)).set 8 (u8 (len >>> (8 : Nat)))).set 9 (u8 (len >>> (16 : Nat)))).take 11).length
      = 11 := by simp; omega
  simp only [transmitHeader, strncpyAt, List.append_assoc, List.getD_eq_getElem?_getD]
  have h7 : 7 < t.length := by omega
  have h8 : 8 < t.length := by omega
  have h9 : 9 < t.length := by omega
  refine ⟨?_, ?_, ?_⟩ <;>
  · rw [List.getElem?_append_left (by rw [h11]; omega)]
    simp [List.getElem?_take, List.getElem?_set, h7, h8, h9]

/-- For a file shorter than 2^24 bytes the bytes 7 to 9 of the control
block hold its length; in general they hold the length modulo 2^24. -/
theorem transmitHeader_value (t dest : List Nat) (L : Nat) (h : 90 ≤ t.length) :
    (transmitHeader t (L : Int) dest).getD 7 0 + 256 * (transmitHeader t (L : Int) dest).getD 8 0 +
      65536 * (transmitHeader t (L : Int) dest).getD 9 0 = L % 16777216 := by
  obtain ⟨h7, h8, h9⟩ := transmitHeader_bytes t dest (L : Int) h
  rw [h7, h8, h9]
  have e8 : (L : Int) >>> (8 : Nat) = ((L / 256 : Nat) : Int) := by
    rw [Int.shiftRight_eq_div_pow]; norm_cast
  have e16 : (L : Int) >>> (16 : Nat) = ((L / 65536 : Nat) : Int) := by
    rw [Int.shiftRight_eq_div_pow]; norm_cast
  rw [e8, e16]
  have hu : ∀ n : Nat, u8 (n : Int) = n % 256 := by
    intro n; unfold u8; omega
  rw [hu, hu, hu]
  omega

theorem toInt_small (n : Nat) (h : n ≤ 33554432) : toInt n = (n : Int) := by
  unfold toInt
  omega

/-- A `transmitFile` call for a file it accepts, with a Portfolio that sends
its ready byte and nothing else, sends the control block and waits. -/
theorem transmitFile_hang (source dest file : List Nat) (w : World)
    (hread : w.fs.read source = some file) (hlen : file.length ≤ 33554432)
    (hti : w.transmitInit.length = 90) (hinp : w.inp = ['Z'.toNat]) :
    ∃ w1, transmitFile source dest w = .hang w1 ∧
      w1.out = w.out ++ wire (transmitHeader w.transmitInit (file.length : Int) dest) 90 := by
  have hn1 : ¬ ((file.length : Int) = -1 ∨ (file.length : Int) > 32 * 1024 * 1024) := by omega
  obtain ⟨w1, h1, h2⟩ := sendBlock_hang (transmitHeader w.transmitInit (file.length : Int) dest) 90
    .VERB_ERRORS { w with transmitInit := transmitHeader w.transmitInit (file.length : Int) dest }
    (by decide) (by rw [transmitHeader_length _ _ _ (by omega)]; omega) hinp
  refine ⟨w1, ?_, h2⟩
  simp only [transmitFile, bind_apply, M.bind, getWorld_apply, FS.canOpen, hread, Option.isSome_some,
    Bool.true_or, not_true_eq_false, if_false, Option.getD_some, Option.isNone_some,
    Bool.false_eq_true, toInt_small _ hlen, hn1, modifyWorld_apply, h1]

theorem bigFile_length : bigFile.length = 16777216 := List.length_replicate _ _

/-- C6 at the file length 16777216, which `transmitFile` accepts: the three
length bytes at offsets 7 to 9 of the control block it sends (after the
marker and the two length bytes of the block) are 0, so the control block
carries the length 0 and not 16777216. -/
theorem transmitFile_length_field_16MiB :
    bigFile.length = 16777216 ∧
    ∃ w1, transmitFile ("big.bin".toList.map Char.toNat) ("c:\\big.bin".toList.map Char.toNat)
        bigFileWorld = .hang w1 ∧
      w1.out.take 13 = [0xa5, 90, 0, 0x03, 0x00, 0x70, 0x0C, 0x7A, 0x21, 0x32, 0, 0, 0] ∧
      w1.out.getD 10 0 + 256 * w1.out.getD 11 0 + 65536 * w1.out.getD 12 0 ≠ 16777216 := by
  refine ⟨bigFile_length, ?_⟩
  obtain ⟨w1, h1, h2⟩ := transmitFile_hang ("big.bin".toList.map Char.toNat)
    ("c:\\big.bin".toList.map Char.toNat) bigFile bigFileWorld
    (by simp [bigFileWorld, FS.read, List.lookup]) (by rw [bigFile_length]; decide)
    (by simp [bigFileWorld, startWorld])
    (by simp [bigFileWorld, startWorld])
  have hout : w1.out.take 13 = [0xa5, 90, 0, 0x03, 0x00, 0x70, 0x0C, 0x7A, 0x21, 0x32, 0, 0, 0] := by
    rw [h2, bigFile_length]
    simp [bigFileWorld, startWorld, wire, transmitHeader, strncpyAt, u8, Int.shiftRight_eq_div_pow]
    decide
  refine ⟨w1, h1, hout, ?_⟩
  have h10 : w1.out.getD 10 0 = (w1.out.take 13).getD 10 0 := by
    simp [List.getElem?_take]
  have h11 : w1.out.getD 11 0 = (w1.out.take 13).getD 11 0 := by
    simp [List.getElem?_take]
  have h12 : w1.out.getD 12 0 = (w1.out.take 13).getD 12 0 := by
    simp [List.getElem?_take]
  rw [h10, h11, h12, hout]
  decide

/-! ## Claims on the destination name mapping -/

theorem cstr_append_nul (s t : List Nat) (h : 0 ∉ s) : cstr (s ++ 0 :: t) = s := by
  induction s with
  | nil => simp [cstr]
  | cons x xs ih =>
    have hx : x ≠ 0 := fun e => h (by simp [e])
    have hxs : 0 ∉ xs := fun e => h (by simp [e])
    have := ih hxs
    have hx2 : (x != 0) = true := by simp [hx]
    simp only [cstr] at this ⊢
    simp only [List.cons_append, List.takeWhile_cons, hx2, if_true, this]

theorem cstr_of_not_mem (s : List Nat) (h : 0 ∉ s) : cstr s = s := by
  induction s with
  | nil => simp [cstr]
  | cons x xs ih =>
    have hx : x ≠ 0 := fun e => h (by simp [e])
    have hxs : 0 ∉ xs := fun e => h (by simp [e])
    have := ih hxs
    have hx2 : (x != 0) = true := by simp [hx]
    simp only [cstr] at this ⊢
    simp only [List.cons_append, List.takeWhile_cons, hx2, if_true, this]

theorem strlenBuf_canon (s t : List Nat) (h : 0 ∉ s) :
    strlenBuf (s ++ 0 :: t) = some s.length := by
  simp [strlenBuf, cstr_append_nul s t h]

theorem exchangeSlashes_eq_map (d : List Nat) :
    exchangeSlashes d = d.map (fun c => if c = '/'.toNat then '\\'.toNat else c) := by
  induction d with
  | nil => rfl
  | cons x xs ih => simp [exchangeSlashes, ih]

theorem exchangeSlashes_not_mem (d : List Nat) (h : 0 ∉ d) : 0 ∉ exchangeSlashes d := by
  rw [exchangeSlashes_eq_map]
  intro hm
  obtain ⟨c, hc, he⟩ := List.mem_map.mp hm
  split at he
  · simp at he
  · exact h (he ▸ hc)

theorem strncpyAt_canon (buf d : List Nat) (hd : 0 ∉ d) (hlen : d.length < 79) :
    strncpyAt buf 0 d MAX_FILENAME_LEN =
      d ++ 0 :: (List.replicate (78 - d.length) 0 ++ buf.drop 79) := by
  have h1 : d.take 79 = d := List.take_of_length_le (by omega)
  have h2 : List.replicate (79 - d.length) 0 = 0 :: List.replicate (78 - d.length) 0 := by
    rw [show 79 - d.length = (78 - d.length) + 1 by omega, List.replicate_succ]
  simp [strncpyAt, MAX_FILENAME_LEN, cstr_of_not_mem d hd, h1, h2]

theorem getD_last_canon (d tail : List Nat) (hne : d ≠ []) :
    (d ++ 0 :: tail).getD (d.length - 1) 0 = d.getLast hne := by
  have hpos : 0 < d.length := List.length_pos.mpr hne
  rw [List.getD_eq_getElem?_getD, List.getElem?_append_left (by omega),
    List.getLast_eq_getElem, List.getElem?_eq_getElem (by omega)]
  rfl

/-- C8 as stated fails: for the single source `x` and the destination
`a/b`, which does not end in a slash, a backslash or a colon, the path
produced is `a\b`, not the destination argument. -/
theorem composePofoName_not_verbatim :
    ∃ r, composePofoName (bytes "x") (bytes "a/b") (List.replicate 80 0) 1 = some r ∧
      r.path = bytes "a\\b" ∧ r.path ≠ bytes "a/b" := by
  refine ⟨⟨bytes "x", bytes "a\\b", bytes "a\\b" ++ List.replicate 77 0⟩, ?_, ?_, ?_⟩ <;> decide

theorem strncpyAt_full (buf d : List Nat) (hd : 0 ∉ d) (hlen : d.length = 79)
    (hbuf : buf.length = 80) (hterm : buf.getD 79 1 = 0) :
    strncpyAt buf 0 d MAX_FILENAME_LEN = d ++ 0 :: [] := by
  have h1 : d.take 79 = d := List.take_of_length_le (by omega)
  have h2 : buf.drop 79 = [0] := by
    have h79 : 79 < buf.length := by omega
    rw [List.drop_eq_getElem_cons h79, List.drop_of_length_le (by omega)]
    rw [List.getD_eq_getElem?_getD, List.getElem?_eq_getElem h79] at hterm
    simp at hterm
    rw [hterm]
  simp [strncpyAt, MAX_FILENAME_LEN, cstr_of_not_mem d hd, h1, h2, hlen]

/-- C8, amended: for a single source and a non-empty destination of at most
79 bytes whose last character is not a slash, a backslash or a colon, the
path `composePofoName` produces is the destination with every slash replaced
by a backslash; it is the destination itself when that has no slash.  For a
destination of exactly 79 bytes this is stated for a buffer whose last byte
is NUL already. -/
theorem composePofoName_file (source dest pofoName : List Nat) (sourcecount : Int)
    (hd : 0 ∉ dest) (hne : dest ≠ []) (hlen : dest.length ≤ 79) (hbuf : pofoName.length = 80)
    (hterm : dest.length = 79 → pofoName.getD 79 1 = 0)
    (hcount : sourcecount = 1)
    (hlast : dest.getLast hne ≠ '/'.toNat ∧ dest.getLast hne ≠ '\\'.toNat ∧
      dest.getLast hne ≠ ':'.toNat) :
    ∃ r, composePofoName source dest pofoName sourcecount = some r ∧
      r.path = dest.map (fun c => if c = '/'.toNat then '\\'.toNat else c) ∧
      ('/'.toNat ∉ dest → r.path = dest) := by
  have hd0 : 0 ∉ exchangeSlashes dest := exchangeSlashes_not_mem dest hd
  have hdl : (exchangeSlashes dest).length = dest.length := by
    rw [exchangeSlashes_eq_map]; simp
  have hdne : exchangeSlashes dest ≠ [] := by
    intro h; rw [h] at hdl; exact hne (List.length_eq_zero.mp hdl.symm)
  have hpos : 0 < dest.length := List.length_pos.mpr hne
  obtain ⟨tail, hcopy⟩ : ∃ tail, strncpyAt pofoName 0 (exchangeSlashes dest) MAX_FILENAME_LEN =
      exchangeSlashes dest ++ 0 :: tail := by
    by_cases h79 : dest.length = 79
    · exact ⟨[], strncpyAt_full pofoName _ hd0 (by omega) hbuf (hterm h79)⟩
    · exact ⟨_, strncpyAt_canon pofoName _ hd0 (by omega)⟩
  have hstrlen := strlenBuf_canon (exchangeSlashes dest) tail hd0
  have hlastc := getD_last_canon (exchangeSlashes dest) tail hdne
  have hglast : (exchangeSlashes dest).getLast hdne = dest.getLast hne := by
    have : ∀ (l : List Nat) (hl : l ≠ []),
        l = dest.map (fun c => if c = '/'.toNat then '\\'.toNat else c) →
        l.getLast hl = (if dest.getLast hne = '/'.toNat then '\\'.toNat else dest.getLast hne) := by
      intro l hl e
      subst e
      rw [List.getLast_map]
    rw [this _ hdne (exchangeSlashes_eq_map dest), if_neg hlast.1]
  have hn0 : ¬ ((exchangeSlashes dest).length = 0) := by omega
  have hcond : ¬ (sourcecount > 1 ∨ (exchangeSlashes dest).getLast hdne = '\\'.toNat ∨
      (exchangeSlashes dest).getLast hdne = ':'.toNat) := by
    rw [hglast]
    rintro (h | h | h)
    · omega
    · exact hlast.2.1 h
    · exact hlast.2.2 h
  have hpath : cstr (exchangeSlashes dest ++ 0 :: tail) =
      dest.map (fun c => if c = '/'.toNat then '\\'.toNat else c) := by
    rw [cstr_append_nul _ _ hd0, exchangeSlashes_eq_map]
  refine ⟨⟨source, exchangeSlashes dest, exchangeSlashes dest ++ 0 :: tail⟩, ?_, hpath, ?_⟩
  · simp only [composePofoName, hcopy, hstrlen, hn0, if_false, hlastc, hcond]
  · intro hns
    simp only [PofoResult.path, hpath]
    conv_rhs => rw [← List.map_id dest]
    apply List.map_congr_left
    intro c hc
    have hc2 : c ≠ '/'.toNat := fun e => hns (e ▸ hc)
    simp only [hc2, if_false, id]

theorem composePofoName_file_witness :
    ∃ r, composePofoName (bytes "x") (bytes "a/b") (List.replicate 80 0) 1 = some r ∧
      r.path = bytes "a\\b" := by
  obtain ⟨r, h1, h2, _⟩ := composePofoName_file (bytes "x") (bytes "a/b") (List.replicate 80 0) 1
    (by decide) (by decide) (by decide) (by decide) (by decide) rfl (by decide)
  exact ⟨r, h1, by rw [h2]; decide⟩

/-! ## Claims on receiving files and listing a directory -/

theorem receiveList_wire (data : List Nat) (verbosity : VERBOSITY) (w : World)
    (rest : List Nat) (hlen : data.length ≤ 2000) (hcap : w.list.length = LIST_BUFSIZE)
    (hinp : w.inp = wire data data.length ++ rest) :
    receiveList 2000 verbosity w =
      .ret (data.length : Int)
        { w with inp := rest,
                 out := w.out ++ ['Z'.toNat, blockChecksum data data.length],
                 stdout := w.stdout ++ recvBlockOut data.length verbosity,
                 stderr := w.stderr ++ recvBlockErr verbosity,
                 list := data ++ w.list.drop data.length } := by
  have h := receiveBlock_wire w.list data 2000 verbosity w rest (by omega)
    (by omega) (by rw [hcap]; unfold LIST_BUFSIZE; omega) hinp
  simp only [receiveList, bind_apply, M.bind, getWorld_apply, h, modifyWorld_apply,
    pure_apply]

theorem receivePayload_wire (data : List Nat) (verbosity : VERBOSITY) (w : World)
    (rest : List Nat) (hlen : data.length ≤ 60000) (hcap : w.payload.length = PAYLOAD_BUFSIZE)
    (hinp : w.inp = wire data data.length ++ rest) :
    receivePayload (PAYLOAD_BUFSIZE : Nat) verbosity w =
      .ret (data.length : Int)
        { w with inp := rest,
                 out := w.out ++ ['Z'.toNat, blockChecksum data data.length],
                 stdout := w.stdout ++ recvBlockOut data.length verbosity,
                 stderr := w.stderr ++ recvBlockErr verbosity,
                 payload := data ++ w.payload.drop data.length } := by
  have h := receiveBlock_wire w.payload data (PAYLOAD_BUFSIZE : Nat) verbosity w rest (by omega)
    (by unfold PAYLOAD_BUFSIZE; omega) (by rw [hcap]; unfold PAYLOAD_BUFSIZE; omega) hinp
  simp only [receivePayload, bind_apply, M.bind, getWorld_apply, h, modifyWorld_apply,
    pure_apply]

/-- C9: zero-match asymmetry.  When the Portfolio answers the list request
with a listing whose entry count (the first two bytes, little-endian) is 0,
`receiveFile` ends the run with `exit(EXIT_FAILURE)`: all it has sent is the
list request, whose opcode is 6, and the acknowledgment of the reply, so no
open-for-read block (opcode 2), and the files are as they were.  `listFiles`
returns, and all it prints is its heading and the notice `No files.`. -/
theorem zero_match_asymmetry (source dest pattern tail : List Nat) (wr wl : World)
    (restr restl : List Nat)
    (hlen : (0 :: 0 :: tail).length ≤ 2000)
    (hcwd : wr.fs.cwdOk = true)
    (hrr : wr.receiveInit.length = 82) (hrl : wl.receiveInit.length = 82)
    (hlist : wr.list.length = LIST_BUFSIZE) (hpay : wl.payload.length = PAYLOAD_BUFSIZE)
    (hinpr : wr.inp = 'Z'.toNat ::
      blockChecksum (strncpyAt (wr.receiveInit.set 0 6) 3 source MAX_FILENAME_LEN) 82 ::
      (wire (0 :: 0 :: tail) (0 :: 0 :: tail).length ++ restr))
    (hinpl : wl.inp = 'Z'.toNat ::
      blockChecksum (strncpyAt wl.receiveInit 3 pattern MAX_FILENAME_LEN) 82 ::
      (wire (0 :: 0 :: tail) (0 :: 0 :: tail).length ++ restl)) :
    (∃ w1, receiveFile source dest wr = .exit w1 ∧
      w1.out = wr.out ++ wire (strncpyAt (wr.receiveInit.set 0 6) 3 source MAX_FILENAME_LEN) 82 ++
        ['Z'.toNat, blockChecksum (0 :: 0 :: tail) (0 :: 0 :: tail).length] ∧
      (strncpyAt (wr.receiveInit.set 0 6) 3 source MAX_FILENAME_LEN).head? = some 6 ∧
      w1.fs.files = wr.fs.files) ∧
    (∃ w2, listFiles pattern wl = .ret () w2 ∧
      w2.stdout = wl.stdout ++
        [s!"Fetching directory listing for {showStr pattern}\n", "No files.\n"]) := by
  constructor
  · -- receiveFile
    have hreq : (strncpyAt (wr.receiveInit.set 0 6) 3 source MAX_FILENAME_LEN).length = 82 := by
      rw [strncpyAt_length _ _ _ _ (by simp [MAX_FILENAME_LEN, hrr])]; simp [hrr]
    have hsend := sendBlock_ok (strncpyAt (wr.receiveInit.set 0 6) 3 source MAX_FILENAME_LEN) 82
      .VERB_ERRORS
      { wr with fs := (wr.fs.chdir dest).getD wr.fs,
                receiveInit := strncpyAt (wr.receiveInit.set 0 6) 3 source MAX_FILENAME_LEN }
      (wire (0 :: 0 :: tail) (0 :: 0 :: tail).length ++ restr) (by decide) (by omega) hinpr
    have hrecv := receiveList_wire (0 :: 0 :: tail) .VERB_ERRORS
      { wr with fs := (wr.fs.chdir dest).getD wr.fs,
                receiveInit := strncpyAt (wr.receiveInit.set 0 6) 3 source MAX_FILENAME_LEN,
                inp := wire (0 :: 0 :: tail) (0 :: 0 :: tail).length ++ restr,
                out := wr.out ++ wire (strncpyAt (wr.receiveInit.set 0 6) 3 source
                  MAX_FILENAME_LEN) 82,
                stdout := wr.stdout ++ sendBlockOut 82 .VERB_ERRORS,
                stderr := wr.stderr ++ sendBlockErr .VERB_ERRORS }
      restr hlen hlist rfl
    have hlisting : ∃ w0, receiveListing source { wr with fs := (wr.fs.chdir dest).getD wr.fs } =
        .ret 0 w0 ∧ w0.out = wr.out ++
          wire (strncpyAt (wr.receiveInit.set 0 6) 3 source MAX_FILENAME_LEN) 82 ++
          ['Z'.toNat, blockChecksum (0 :: 0 :: tail) (0 :: 0 :: tail).length] ∧
        w0.fs = (wr.fs.chdir dest).getD wr.fs := by
      refine ⟨?w0, ?_, ?_, ?_⟩
      case w0 =>
        exact { wr with
          fs := (wr.fs.chdir dest).getD wr.fs,
          receiveInit := strncpyAt (wr.receiveInit.set 0 6) 3 source MAX_FILENAME_LEN,
          inp := restr,
          out := wr.out ++ wire (strncpyAt (wr.receiveInit.set 0 6) 3 source
            MAX_FILENAME_LEN) 82 ++
            ['Z'.toNat, blockChecksum (0 :: 0 :: tail) (0 :: 0 :: tail).length],
          stdout := wr.stdout ++ sendBlockOut 82 .VERB_ERRORS ++
            recvBlockOut (0 :: 0 :: tail).length .VERB_ERRORS,
          stderr := wr.stderr ++ sendBlockErr .VERB_ERRORS ++ recvBlockErr .VERB_ERRORS,
          list := (0 :: 0 :: tail) ++ wr.list.drop (0 :: 0 :: tail).length }
      · simp only [receiveListing, bind_apply, M.bind, modifyWorld_apply, getWorld_apply, hsend,
          hrecv, pure_apply]
        simp
      · rfl
      · rfl
    obtain ⟨w0, h0, h0o, h0f⟩ := hlisting
    refine ⟨{ w0 with stdout := w0.stdout ++
        [s!"File not found on Portfolio: {showStr source}\n"] }, ?_, ?_, ?_, ?_⟩
    · simp only [receiveFile, bind_apply, M.bind, getWorld_apply, hcwd, not_true_eq_false,
        if_false, modifyWorld_apply, h0, if_true, printf_apply, exitFailure_apply]
    · simp [h0o]
    · have h3 : 0 < (wr.receiveInit.set 0 6).length := by simp [hrr]
      simp only [strncpyAt]
      cases hri : wr.receiveInit.set 0 6 with
      | nil => rw [hri] at h3; simp at h3
      | cons a l =>
        have : a = 6 := by
          have := congrArg (fun l => l.head?) hri
          cases hw : wr.receiveInit with
          | nil => rw [hw] at hrr; simp at hrr
          | cons b l2 => rw [hw] at this; simp at this; exact this.symm
        subst this
        simp
    · simp only [h0f]
      unfold FS.chdir
      split <;> simp
  · -- listFiles
    have hreq : (strncpyAt wl.receiveInit 3 pattern MAX_FILENAME_LEN).length = 82 := by
      rw [strncpyAt_length _ _ _ _ (by simp [MAX_FILENAME_LEN, hrl])]; exact hrl
    have hsend := sendBlock_ok (strncpyAt wl.receiveInit 3 pattern MAX_FILENAME_LEN) 82
      .VERB_ERRORS
      { wl with stdout := wl.stdout ++ [s!"Fetching directory listing for {showStr pattern}\n"],
                receiveInit := strncpyAt wl.receiveInit 3 pattern MAX_FILENAME_LEN }
      (wire (0 :: 0 :: tail) (0 :: 0 :: tail).length ++ restl) (by decide) (by omega) hinpl
    have hrecv := receivePayload_wire (0 :: 0 :: tail) .VERB_ERRORS
      { wl with stdout := wl.stdout ++ [s!"Fetching directory listing for {showStr pattern}\n"] ++
                  sendBlockOut 82 .VERB_ERRORS,
                receiveInit := strncpyAt wl.receiveInit 3 pattern MAX_FILENAME_LEN,
                inp := wire (0 :: 0 :: tail) (0 :: 0 :: tail).length ++ restl,
                out := wl.out ++ wire (strncpyAt wl.receiveInit 3 pattern MAX_FILENAME_LEN) 82,
                stderr := wl.stderr ++ sendBlockErr .VERB_ERRORS }
      restl (by omega) hpay rfl
    refine ⟨{ wl with
        stdout := wl.stdout ++ [s!"Fetching directory listing for {showStr pattern}\n"] ++
          sendBlockOut 82 .VERB_ERRORS ++ recvBlockOut (0 :: 0 :: tail).length .VERB_ERRORS ++
          ["No files.\n"],
        receiveInit := strncpyAt wl.receiveInit 3 pattern MAX_FILENAME_LEN,
        inp := restl,
        out := wl.out ++ wire (strncpyAt wl.receiveInit 3 pattern MAX_FILENAME_LEN) 82 ++
          ['Z'.toNat, blockChecksum (0 :: 0 :: tail) (0 :: 0 :: tail).length],
        stderr := wl.stderr ++ sendBlockErr .VERB_ERRORS ++ recvBlockErr .VERB_ERRORS,
        payload := (0 :: 0 :: tail) ++ wl.payload.drop (0 :: 0 :: tail).length }, ?_, ?_⟩
    · simp only [listFiles, bind_apply, M.bind, printf_apply, modifyWorld_apply, getWorld_apply,
        hsend, hrecv, pure_apply]
      simp [listNames]
    · simp [sendBlockOut, sentLog, recvBlockOut, recvLog, VERBOSITY.ge, VERBOSITY.toNat]

theorem zero_match_asymmetry_witness :
    (∃ w1, receiveFile (bytes "*.txt") (bytes "out") noMatchWorld = .exit w1 ∧
      w1.fs.files = []) ∧
    (∃ w2, listFiles (bytes "*.txt") noMatchWorld = .ret () w2) := by
  obtain ⟨⟨w1, h1, _, _, h2⟩, ⟨w2, h3, _⟩⟩ := zero_match_asymmetry (bytes "*.txt") (bytes "out")
    (bytes "*.txt") [] noMatchWorld noMatchWorld [] [] (by decide) rfl
    (by simp [noMatchWorld, startWorld]) (by simp [noMatchWorld, startWorld])
    (by simp [noMatchWorld, startWorld]) (by simp [noMatchWorld, startWorld]) rfl rfl
  exact ⟨⟨w1, h1, h2⟩, ⟨w2, h3⟩⟩

theorem frames_cons (b : List Nat) (bs : List (List Nat)) :
    frames (b :: bs) = wire b b.length ++ frames bs := by
  simp [frames]

theorem frames_length (bs : List (List Nat)) : bs.length ≤ (frames bs).length := by
  induction bs with
  | nil => simp
  | cons b bs ih =>
    rw [frames_cons, List.length_append, List.length_cons]
    have : 1 ≤ (wire b b.length).length := by simp [wire]
    omega

/-- The payload loop of `receiveFile` on the blocks it is served. -/
theorem receiveData_run (key : List Nat × List Nat) :
    ∀ (blocks : List (List Nat)) (fuel : Nat) (total : Int) (w : World) (rest : List Nat),
      Serves total blocks → blocks.length ≤ fuel → w.payload.length = PAYLOAD_BUFSIZE →
      w.inp = frames blocks ++ rest →
      ∃ w1, receiveData key fuel total w = .ret () w1 ∧ w1.inp = rest ∧
        w1.out = w.out ++ blocks.flatMap (fun b => ['Z'.toNat, blockChecksum b b.length]) ∧
        w1.fs = writeBlocks key w.fs blocks ∧ w1.payload.length = PAYLOAD_BUFSIZE ∧
        w1.receiveInit = w.receiveInit ∧ w1.list = w.list ∧ w1.force = w.force ∧
        w1.controlData = w.controlData := by
  intro blocks
  induction blocks with
  | nil =>
    intro fuel total w rest hs _ hp hinp
    simp only [Serves] at hs
    have hn : ¬ (total > 0) := by omega
    refine ⟨w, ?_, by simpa [frames] using hinp, by simp, rfl, hp, rfl, rfl, rfl, rfl⟩
    cases fuel <;> simp [receiveData, hn]
  | cons b bs ih =>
    intro fuel total w rest hs hfuel hp hinp
    simp only [Serves] at hs
    obtain ⟨hpos, hb, hs2⟩ := hs
    cases fuel with
    | zero => simp at hfuel
    | succ fuel =>
      rw [frames_cons, List.append_assoc] at hinp
      have hrecv := receivePayload_wire b .VERB_COUNTER w (frames bs ++ rest) hb hp hinp
      have htake : (b ++ w.payload.drop b.length).take (toSize (b.length : Int)) = b := by
        rw [toSize_natCast]; simp
      obtain ⟨w1, h1, h2, h3, h4, h5, h6, h7, h8, h9⟩ := ih fuel (total - b.length)
        { w with inp := frames bs ++ rest,
                 out := w.out ++ ['Z'.toNat, blockChecksum b b.length],
                 stdout := w.stdout ++ recvBlockOut b.length .VERB_COUNTER,
                 stderr := w.stderr ++ recvBlockErr .VERB_COUNTER,
                 payload := b ++ w.payload.drop b.length,
                 fs := w.fs.append key b }
        rest hs2 (by simpa using hfuel)
        (by simp only [List.length_append, List.length_drop]
            rw [hp]; unfold PAYLOAD_BUFSIZE; omega)
        rfl
      refine ⟨w1, ?_, h2, ?_, ?_, h5, h6, h7, h8, h9⟩
      · simp only [receiveData, hpos, if_true, bind_apply, M.bind, hrecv, modifyWorld_apply,
          htake]
        exact h1
      · rw [h3]; simp
      · rw [h4]; simp [writeBlocks]

theorem outOfBounds_apply {α : Type} (w : World) :
    (outOfBounds : M α) w = .undef w := rfl

theorem getD_append_left (a b : List Nat) (i : Nat) (h : i < a.length) :
    (a ++ b).getD i 0 = a.getD i 0 := by
  simp [List.getD_eq_getElem?_getD, List.getElem?_append_left h]

/-- The reply is accepted and the payload received from a Portfolio that
serves the file. -/
theorem receiveContent_run (key : List Nat × List Nat) (s : Served) (w : World)
    (rest tl : List Nat) (hok : s.ok)
    (hcd : w.controlData = s.reply ++ tl) (hp : w.payload.length = PAYLOAD_BUFSIZE)
    (hinp : w.inp = frames s.blocks ++ ('Z'.toNat :: blockChecksum receiveFinish 3 :: rest)) :
    ∃ w1, receiveContent key w = .ret () w1 ∧ w1.inp = rest ∧
      w1.out = w.out ++ s.blocks.flatMap (fun b => ['Z'.toNat, blockChecksum b b.length]) ++
        wire receiveFinish 3 ∧
      w1.fs = writeBlocks key w.fs s.blocks ∧
      w1.receiveInit = w.receiveInit ∧ w1.list = w.list ∧
      w1.force = w.force ∧ w1.payload.length = PAYLOAD_BUFSIZE ∧
      w1.controlData = w.controlData := by
  obtain ⟨hr10, hr100, hr0, hserves⟩ := hok
  have hcd0 : w.controlData.getD 0 0 = 0x20 := by
    rw [hcd, getD_append_left _ _ _ (by omega)]; exact hr0
  have htot : (w.controlData.getD 7 0 + (w.controlData.getD 8 0 <<< 8) +
      (w.controlData.getD 9 0 <<< 16)) = declaredTotal s.reply := by
    rw [hcd, getD_append_left _ _ _ (by omega), getD_append_left _ _ _ (by omega),
      getD_append_left _ _ _ (by omega)]
    rfl
  obtain ⟨w2, hw2, hw2i, hw2o, hw2f, hw2r, hw2l, hw2fo, hw2p, hw2c⟩ : ∃ w2 : World,
      receiveAnnounce ((declaredTotal s.reply : Nat) : Int) w = .ret () w2 ∧
        w2.inp = w.inp ∧ w2.out = w.out ∧ w2.fs = w.fs ∧ w2.receiveInit = w.receiveInit ∧
        w2.list = w.list ∧ w2.force = w.force ∧ w2.payload = w.payload ∧
        w2.controlData = w.controlData := by
    unfold receiveAnnounce
    split
    · exact ⟨_, rfl, rfl, rfl, rfl, rfl, rfl, rfl, rfl, rfl⟩
    · exact ⟨_, rfl, rfl, rfl, rfl, rfl, rfl, rfl, rfl, rfl⟩
  obtain ⟨w3, h1, h2, h3, h4, h5, h6, h7, h8, h9⟩ := receiveData_run key s.blocks
    (w2.inp.length + 1) (declaredTotal s.reply : Nat) w2 _ hserves
    (by rw [hw2i, hinp, List.length_append]; have := frames_length s.blocks; omega)
    (by rw [hw2p]; exact hp) (by rw [hw2i]; exact hinp)
  have hfin := sendBlock_ok receiveFinish 3 .VERB_ERRORS w3 rest (by decide) (by decide) h2
  have hrun : receiveContent key w = sendBlock receiveFinish 3 .VERB_ERRORS w3 := by
    unfold receiveContent
    simp only [bind_apply, M.bind, getWorld_apply, hcd0, ne_eq, not_true_eq_false, if_false,
      htot, hw2, h1]
  rw [hfin] at hrun
  refine ⟨_, hrun, rfl, ?_, ?_, ?_, ?_, ?_, h5, ?_⟩
  · simp only [h3, hw2o]
  · simp only [h4, hw2f]
  · simp only [h6, hw2r]
  · simp only [h7, hw2l]
  · simp only [h8, hw2fo]
  · simp only [h9, hw2c]

/-- A name that does not fit behind `namebase` makes line 707 write behind
the end of `receiveInit`. -/
theorem receiveRequest_overrun (nb : Nat) (name : List Nat) (key : List Nat × List Nat)
    (w : World) (hnb : w.receiveInit.length < nb + MAX_FILENAME_LEN) :
    ∃ w1, receiveRequest nb name key w = .undef w1 := by
  have hroom : ¬ nb + MAX_FILENAME_LEN ≤ (w.receiveInit.set 0 2).length := by
    rw [List.length_set]; omega
  refine ⟨{ w with receiveInit := w.receiveInit.set 0 2 }, ?_⟩
  simp only [receiveRequest, bind_apply, M.bind, modifyWorld_apply, getWorld_apply, hroom,
    if_false, outOfBounds_apply]

theorem firstLens_zero (blocks : List (List Nat)) : firstLens blocks 0 = 0 := by
  simp [firstLens]

theorem firstLens_succ (b : List Nat) (bs : List (List Nat)) (j : Nat) :
    firstLens (b :: bs) (j + 1) = b.length + firstLens bs j := by
  simp [firstLens]

/-- The first `k` blocks are what the payload loop reads when `k` is the
least number of blocks whose lengths sum to at least the total. -/
theorem serves_of_least : ∀ (k : Nat) (blocks : List (List Nat)) (total : Int),
    k ≤ blocks.length → (∀ b ∈ blocks, b.length ≤ 60000) →
    total ≤ (firstLens blocks k : Nat) → (∀ j < k, ((firstLens blocks j : Nat) : Int) < total) →
    Serves total (blocks.take k) := by
  intro k
  induction k with
  | zero =>
    intro blocks total _ _ hsum _
    rw [firstLens_zero] at hsum
    simpa [Serves] using hsum
  | succ k ih =>
    intro blocks total hk hlen hsum hleast
    cases blocks with
    | nil => simp at hk
    | cons b bs =>
      rw [firstLens_succ] at hsum
      have h0 := hleast 0 (by omega)
      rw [firstLens_zero] at h0
      simp only [List.take_succ_cons, Serves]
      refine ⟨by simpa using h0, hlen b (List.mem_cons_self _ _), ?_⟩
      refine ih bs _ (by simpa using hk) (fun c hc => hlen c (List.mem_cons_of_mem _ hc))
        (by push_cast at hsum ⊢; omega) ?_
      intro j hj
      have := hleast (j + 1) (by omega)
      rw [firstLens_succ] at this
      push_cast at this ⊢
      omega

theorem lookup_append (key : List Nat × List Nat) (d : List Nat) :
    ∀ (files : List ((List Nat × List Nat) × List Nat)),
      (files.map (fun f => if f.1 == key then (f.1, f.2 ++ d) else f)).lookup key =
        (files.lookup key).map (fun c => c ++ d) := by
  intro files
  induction files with
  | nil => rfl
  | cons f fs ih =>
    obtain ⟨k, c⟩ := f
    by_cases h : key = k
    · subst h
      simp only [List.map_cons, beq_self_eq_true, if_true, List.lookup_cons, Option.map_some']
    · have h1 : (key == k) = false := by simpa using h
      have h2 : (k == key) = false := by simpa using (fun e => h (Eq.symm e))
      simp only [List.map_cons, h2, Bool.false_eq_true, if_false, List.lookup_cons, h1]
      exact ih

/-- The file `key` after the blocks have been written to it. -/
theorem writeBlocks_lookup (key : List Nat × List Nat) :
    ∀ (blocks : List (List Nat)) (fs : FS) (old : List Nat),
      fs.files.lookup key = some old →
      (writeBlocks key fs blocks).files.lookup key = some (old ++ blocks.flatten) := by
  intro blocks
  induction blocks with
  | nil => intro fs old h; simpa [writeBlocks] using h
  | cons b bs ih =>
    intro fs old h
    have h1 : (fs.append key b).files.lookup key = some (old ++ b) := by
      simp only [FS.append]
      rw [lookup_append, h]
      rfl
    have := ih (fs.append key b) (old ++ b) h1
    simpa [writeBlocks] using this

/-- C11: receive reassembly.  The reply to the open-for-read block is in
`controlData` (status `0x20`, the total `T` in the bytes 7 to 9), the
incoming payload blocks have between 1 and 60000 bytes each, and `k` is the
least number such that the first `k` block lengths sum to at least `T`.  Then
lines 713-732 of `receiveFile` return having read exactly the frames of the
first `k` blocks: one `receiveBlock` exchange (the byte `Z`, then the
acknowledgment) is sent for each of them and for no other block, the bytes of
these `k` blocks are appended to the local file in the order of arrival, and
the last thing sent is the close block `20 00 03`. -/
theorem receive_reassembly (key : List Nat × List Nat) (w : World)
    (blocks : List (List Nat)) (k : Nat) (old rest : List Nat)
    (hstatus : w.controlData.getD 0 0 = 0x20)
    (hcd : w.controlData.length = CONTROL_BUFSIZE) (hp : w.payload.length = PAYLOAD_BUFSIZE)
    (hlen : ∀ b ∈ blocks, 1 ≤ b.length ∧ b.length ≤ 60000)
    (hk : k ≤ blocks.length)
    (hsum : declaredTotal w.controlData ≤ firstLens blocks k)
    (hleast : ∀ j < k, firstLens blocks j < declaredTotal w.controlData)
    (hfile : w.fs.files.lookup key = some old)
    (hinp : w.inp = frames (blocks.take k) ++
      ('Z'.toNat :: blockChecksum [0x20, 0x00, 0x03] 3 :: rest)) :
    ∃ w1, receiveContent key w = .ret () w1 ∧ w1.inp = rest ∧
      w1.out = w.out ++
        (blocks.take k).flatMap (fun b => ['Z'.toNat, blockChecksum b b.length]) ++
        wire [0x20, 0x00, 0x03] 3 ∧
      w1.fs.files.lookup key = some (old ++ (blocks.take k).flatten) ∧
      (declaredTotal w.controlData = 0 → k = 0) := by
  have hserves := serves_of_least k blocks (declaredTotal w.controlData : Nat) hk
    (fun b hb => (hlen b hb).2) (by exact_mod_cast hsum)
    (fun j hj => by exact_mod_cast hleast j hj)
  obtain ⟨w1, h1, h2, h3, h4, _⟩ := receiveContent_run key ⟨w.controlData, blocks.take k⟩ w rest []
    ⟨by rw [hcd]; decide, by rw [hcd]; exact Nat.le_refl _, hstatus, hserves⟩ (by simp) hp hinp
  refine ⟨w1, h1, h2, h3, ?_, ?_⟩
  · rw [h4]
    exact writeBlocks_lookup key _ _ _ hfile
  · intro h0
    by_contra hk0
    have := hleast 0 (by omega)
    omega

theorem receive_reassembly_witness :
    ∃ w1, receiveContent ([], bytes "f") reassemblyWorld = .ret () w1 ∧
      w1.out = ['Z'.toNat, blockChecksum [1, 2] 2, 'Z'.toNat, blockChecksum [3, 4] 2] ++
        wire [0x20, 0x00, 0x03] 3 ∧
      w1.fs.files.lookup ([], bytes "f") = some [1, 2, 3, 4] := by
  obtain ⟨w1, h1, _, h3, h4, _⟩ := receive_reassembly ([], bytes "f") reassemblyWorld
    [[1, 2], [3, 4], [5]] 2 [] [] (by decide)
    (by simp [reassemblyWorld, startWorld, CONTROL_BUFSIZE])
    (by simp [reassemblyWorld, startWorld]) (by decide) (by decide) (by decide) (by decide)
    (by decide) rfl
  exact ⟨w1, h1, h3, h4⟩

/-! ## Error handling of the block transfer -/

/-- C12: buffer too small is not fatal.  At every verbosity and for every
`maxLen` that is not negative: when the block that comes in starts with the
marker `0xA5` and its length bytes give `lenH * 256 + lenL`, more than
`maxLen`, `receiveBlock` returns 0 and the run goes on; the buffer is handed
back as it was given, exactly the marker and the two length bytes have been
read, and the only byte sent is the `Z` at the start of the call, so no
acknowledgment is sent. -/
theorem receiveBlock_buffer_too_small (pData : List Nat) (maxLen : Int)
    (verbosity : VERBOSITY) (w : World) (lenL lenH : Nat) (rest : List Nat)
    (hmax0 : 0 ≤ maxLen) (hL : lenL < 256)
    (hinp : w.inp = 0xa5 :: lenL :: lenH :: rest)
    (hbig : maxLen < ((lenH * 256 + lenL : Nat) : Int)) :
    ∃ w1, receiveBlock pData maxLen verbosity w = .ret (0, pData) w1 ∧ w1.inp = rest ∧
      w1.out = w.out ++ ['Z'.toNat] ∧ w1.payload = w.payload ∧
      w1.controlData = w.controlData ∧ w1.list = w.list ∧ w1.fs = w.fs := by
  have hmax : toUnsigned maxLen < (lenH <<< 8) ||| lenL := by
    rw [shiftLeft8_or lenH lenL hL]
    unfold toUnsigned
    split <;> omega
  cases verbosity <;>
  simp [receiveBlock, M.bind, receiveByte, hinp, hmax, VERBOSITY.ge, VERBOSITY.toNat]

theorem receiveBlock_buffer_too_small_witness :
    ∃ w1, receiveBlock [7, 7] 2 .VERB_QUIET (startWorld [0xa5, 3, 0, 1, 2, 3, 250]) =
        .ret (0, [7, 7]) w1 ∧
      w1.inp = [1, 2, 3, 250] ∧ w1.out = ['Z'.toNat] := by
  obtain ⟨w1, h1, h2, h3, _⟩ := receiveBlock_buffer_too_small [7, 7] 2 .VERB_QUIET
    (startWorld [0xa5, 3, 0, 1, 2, 3, 250]) 3 0 [1, 2, 3, 250] (by decide) (by decide) rfl
    (by decide)
  exact ⟨w1, h1, h2, h3⟩

/-- C13 as stated fails: at the verbosity `VERB_QUIET`, a `sendBlock` call
for the one byte `1` that first receives the byte 0, which is not `Z`, does
not end the run: it returns, and it has sent the marker, the length, the
payload and the checksum. -/
theorem sendBlock_quiet_not_ready :
    (0 : Nat) ≠ 'Z'.toNat ∧
    ∃ w1, sendBlock [1] 1 .VERB_QUIET (startWorld [0, 254]) = .ret () w1 ∧
      w1.out = [0xa5, 1, 0, 1, 254] := by
  refine ⟨by decide, { startWorld [0, 254] with inp := [], out := [0xa5, 1, 0, 1, 254] }, ?_,
    rfl⟩
  simp [sendBlock, sendBlockLoop, M.bind, receiveByte, sendByte, startWorld, VERBOSITY.ge,
    VERBOSITY.toNat, u8]

/-- C13, amended: for every payload that is not empty and every verbosity
of at least `VERB_ERRORS`, when the byte `sendBlock` first receives is not the
ready byte `Z`, `sendBlock` ends the run with `exit(EXIT_FAILURE)` after the
line `Portfolio not ready!`, and no byte of the block has been sent. -/
theorem sendBlock_not_ready (pData : List Nat) (len : Nat) (verbosity : VERBOSITY)
    (w : World) (b : Nat) (rest : List Nat) (hlen : len ≠ 0)
    (hv : verbosity.ge .VERB_ERRORS = true)
    (hinp : w.inp = b :: rest) (hb : b ≠ 'Z'.toNat) :
    ∃ w1, sendBlock pData len verbosity w = .exit w1 ∧ w1.out = w.out ∧
      w1.stderr = w.stderr ++ ["Portfolio not ready!\n"] := by
  have hb2 : ¬ b = 90 := hb
  cases verbosity <;>
  simp [VERBOSITY.ge, VERBOSITY.toNat] at hv <;>
  simp [sendBlock, hlen, M.bind, receiveByte, hinp, hb2, VERBOSITY.ge, VERBOSITY.toNat,
    eprintf, exitFailure]

theorem sendBlock_not_ready_witness :
    ∃ w1, sendBlock [1] 1 .VERB_ERRORS (startWorld [0, 254]) = .exit w1 ∧ w1.out = [] := by
  obtain ⟨w1, h1, h2, _⟩ := sendBlock_not_ready [1] 1 .VERB_ERRORS (startWorld [0, 254]) 0 [254]
    (by decide) (by decide) rfl (by decide)
  exact ⟨w1, h1, h2⟩

/-! ## The length of the mapped path -/

/-- A destination of 79 bytes or more fills the 79 bytes `strncpy` writes, so
that no NUL is written and the last byte of the buffer stays as it was. -/
theorem strncpyAt_fill (buf d : List Nat) (hd : 0 ∉ d) (hlen : 79 ≤ d.length)
    (hbuf : buf.length = 80) :
    strncpyAt buf 0 d MAX_FILENAME_LEN = d.take 79 ++ [buf.getD 79 0] := by
  have h79lt : 79 < buf.length := by omega
  have h2 : buf.drop 79 = [buf.getD 79 0] := by
    rw [List.drop_eq_getElem_cons h79lt, List.drop_of_length_le (by omega),
      List.getD_eq_getElem?_getD, List.getElem?_eq_getElem h79lt]
    rfl
  have h4 : (d.take 79).length = 79 := by rw [List.length_take]; omega
  simp [strncpyAt, MAX_FILENAME_LEN, cstr_of_not_mem d hd, h2, h4]

/-- When the last byte of the buffer is not NUL either, `strlen` finds no end
of the string inside the buffer. -/
theorem strncpyAt_unterminated (buf d : List Nat) (hd : 0 ∉ d) (hlen : 79 ≤ d.length)
    (hbuf : buf.length = 80) (h79 : buf.getD 79 0 ≠ 0) :
    strlenBuf (strncpyAt buf 0 d MAX_FILENAME_LEN) = none := by
  have h3 : 0 ∉ d.take 79 := fun h => hd (List.mem_of_mem_take h)
  rw [strncpyAt_fill buf d hd hlen hbuf]
  have h6 : 0 ∉ d.take 79 ++ [buf.getD 79 0] := by
    intro h
    rcases List.mem_append.mp h with h | h
    · exact h3 h
    · exact h79 (List.mem_singleton.mp h).symm
  have h7 : ¬ ((d.take 79 ++ [buf.getD 79 0]).contains 0 = true) := by simpa using h6
  rw [strlenBuf, if_neg h7]

/-- With a destination of 79 bytes or more and a buffer whose last byte is
not NUL, `composePofoName` reads past the end of the buffer, whatever the
source and the number of sources are. -/
theorem composePofoName_unterminated (source dest pofoName : List Nat) (sourcecount : Int)
    (hd : 0 ∉ dest) (hlen : 79 ≤ dest.length) (hbuf : pofoName.length = 80)
    (h79 : pofoName.getD 79 0 ≠ 0) :
    composePofoName source dest pofoName sourcecount = none := by
  have h := strncpyAt_unterminated pofoName (exchangeSlashes dest)
    (exchangeSlashes_not_mem dest hd)
    (by rw [exchangeSlashes_eq_map, List.length_map]; exact hlen) hbuf h79
  simp only [composePofoName, h]

/-- C14 fails on the code: for the destination of 79 letters `a` and a buffer
whose last byte is not NUL, `strncpy` leaves the buffer filled with the 79
bytes of the destination and the old last byte, without a NUL, so that the
string in `pofoName` does not end inside the 80 bytes: `composePofoName` reads
past the buffer, with one source (the verbatim case) and with two (the
directory case). -/
theorem composePofoName_path_overrun :
    strncpyAt staleBuffer 0 (exchangeSlashes longDest) MAX_FILENAME_LEN = longDest ++ [0xff] ∧
    0 ∉ longDest ++ [0xff] ∧
    composePofoName (bytes "a.txt") longDest staleBuffer 1 = none ∧
    composePofoName (bytes "a.txt") longDest staleBuffer 2 = none := by
  have h0 : 0 ∉ longDest := by simp [longDest]
  have hl : 79 ≤ longDest.length := by simp [longDest]
  have hb : staleBuffer.length = 80 := by simp [staleBuffer]
  have h79 : staleBuffer.getD 79 0 ≠ 0 := by simp [staleBuffer]
  have hx : exchangeSlashes longDest = longDest := by
    rw [exchangeSlashes_eq_map]; simp [longDest]
  refine ⟨?_, by simp [longDest], ?_, ?_⟩
  · rw [hx, strncpyAt_fill _ _ h0 hl hb]
    simp [longDest, staleBuffer]
  · exact composePofoName_unterminated _ _ _ _ h0 hl hb h79
  · exact composePofoName_unterminated _ _ _ _ h0 hl hb h79
end Transfolio
